import Mathlib

/-!
Shallow embedding of the Medium aggregate persistence component of the
wolfgang server (`src/database/mediums.rs`), together with proofs of the
specification's claims about it.

The database is modelled as four lists of rows (`mediums`, `track_sets`,
`tracks`, `recordings`), inserts append a row after a primary-key
uniqueness check, and the diesel transaction wrapper restores the previous
state on any error.  Random row identifiers (`rand::random()`) are modelled
by a generator function `Nat → Int` consulted at successive counters.
The external collaborators (`User` capabilities, `get_recording`,
`update_recording` from `src/database/mod.rs` and `recordings.rs`, which are
not part of the sources) are modelled from the specification, as noted on
each definition.
-/

namespace Wolfgang

/-- Decidable equality of `Except`, used to evaluate the operations on the
concrete witnesses. -/
instance {ε α : Type} [DecidableEq ε] [DecidableEq α] :
    DecidableEq (Except ε α) := fun x y =>
  match x, y with
  | .ok a, .ok b =>
    if h : a = b then isTrue (by rw [h]) else isFalse (by simp [h])
  | .error e, .error f =>
    if h : e = f then isTrue (by rw [h]) else isFalse (by simp [h])
  | .ok _, .error _ => isFalse (by simp)
  | .error _, .ok _ => isFalse (by simp)

/-! ## Work-part encoding

`update_medium` stores a track's work parts as the decimal representations
joined by `','` (mediums.rs lines 135-141); reading back splits on `','`
and parses each segment as a Rust `usize` (lines 256-261). -/

/-- Decimal digit character for a value below ten (other inputs are never
used). -/
def digitChar : Nat → Char
  | 0 => '0'
  | 1 => '1'
  | 2 => '2'
  | 3 => '3'
  | 4 => '4'
  | 5 => '5'
  | 6 => '6'
  | 7 => '7'
  | 8 => '8'
  | 9 => '9'
  | _ => '*'

/-- Numeric value of a digit character. -/
def dval (c : Char) : Nat := c.toNat - 48

/-- Little-endian list of decimal digit characters, driven by a fuel
argument so that the recursion is structural (any fuel above the number of
digits yields the same list). -/
def natDigitsRevFuel : Nat → Nat → List Char
  | 0, _ => []
  | f + 1, n =>
    if n < 10 then [digitChar n]
    else digitChar (n % 10) :: natDigitsRevFuel f (n / 10)

/-- Little-endian list of decimal digit characters of `n`. -/
def natDigitsRev (n : Nat) : List Char := natDigitsRevFuel (n + 1) n

/-- Decimal representation of `n`, as Rust's `usize::to_string` produces it:
plain digits, most significant first, no sign, no leading zeros. -/
def natReprChars (n : Nat) : List Char := (natDigitsRev n).reverse

/-- Model of Rust's `Vec<String>::join(",")` on character lists. -/
def joinCommaChars : List (List Char) → List Char
  | [] => []
  | [x] => x
  | x :: rest => x ++ ',' :: joinCommaChars rest

/-- Model of Rust's `str::split(',')`: the empty string yields one empty
segment, and every comma separates two (possibly empty) segments. -/
def splitCommaChars : List Char → List (List Char)
  | [] => [[]]
  | c :: rest =>
    if c = ',' then [] :: splitCommaChars rest
    else
      match splitCommaChars rest with
      | [] => [[c]]
      | seg :: segs => (c :: seg) :: segs

/-- Digit-string part of Rust's `str::parse::<usize>`: at least one decimal
digit, rejecting values that do not fit in 64 bits. -/
def parseDigits (ds : List Char) : Option Nat :=
  if ds = [] then none
  else if ds.all (fun c => c.isDigit) then
    if ds.foldl (fun a c => a * 10 + dval c) 0 < 2 ^ 64 then
      some (ds.foldl (fun a c => a * 10 + dval c) 0)
    else none
  else none

/-- Model of Rust's `str::parse::<usize>`: an optional leading `'+'`
followed by at least one decimal digit, rejecting values that do not fit
in 64 bits. -/
def parseSegment (cs : List Char) : Option Nat :=
  parseDigits (if cs.head? = some '+' then cs.tail else cs)

/-- Encoding of a work-part list into the `work_parts` text column
(mediums.rs lines 135-141). -/
def encodeWorkParts (l : List Nat) : String :=
  ⟨joinCommaChars (l.map natReprChars)⟩

/-- Parsing loop over the segments, stopping at the first malformed one
(the `collect::<Result<..>>` in mediums.rs line 261). -/
def parseSegments : List (List Char) → Option (List Nat)
  | [] => some []
  | s :: rest =>
    match parseSegment s, parseSegments rest with
    | some v, some vs => some (v :: vs)
    | _, _ => none

/-- Decoding of the `work_parts` text column back into a work-part list
(mediums.rs lines 256-261); `none` models the fatal parse error. -/
def decodeWorkParts (s : String) : Option (List Nat) :=
  parseSegments (splitCommaChars s.data)

/-- Truncating cast of a `usize` value to `i32`, as in `index as i32`
(mediums.rs lines 125 and 146). -/
def i32ofNat (n : Nat) : Int := ((n : Int) + 2 ^ 31) % 2 ^ 32 - 2 ^ 31

/-! ## Data model -/

/-- Modelled from the spec: the Recording aggregate is owned by the external
Recording collaborator (`src/database/recordings.rs` is not part of the
sources); only its id is relevant here, the remaining payload is kept
abstractly as `work` and `comment` (schema.rs `recordings` table). -/
structure Recording where
  id : String
  work : String
  comment : String
deriving DecidableEq

/-- A track within a recording on a medium (mediums.rs lines 40-44). -/
structure Track where
  work_parts : List Nat
deriving DecidableEq

/-- A set of tracks of one recording within a medium (mediums.rs lines
29-35). -/
structure TrackSet where
  recording : Recording
  tracks : List Track
deriving DecidableEq

/-- A medium containing multiple recordings (mediums.rs lines 12-24). -/
structure Medium where
  id : String
  name : String
  discid : Option String
  tracks : List TrackSet
deriving DecidableEq

/-- Table row for a medium (mediums.rs lines 49-54). -/
structure MediumRow where
  id : String
  name : String
  discid : Option String
  created_by : String
deriving DecidableEq

/-- Table row for a track set (mediums.rs lines 59-64). -/
structure TrackSetRow where
  id : Int
  medium : String
  index : Int
  recording : String
deriving DecidableEq

/-- Table row for a track (mediums.rs lines 69-74). -/
structure TrackRow where
  id : Int
  track_set : Int
  index : Int
  work_parts : String
deriving DecidableEq

/-- Stored row of the external `recordings` table (schema.rs lines 53-60). -/
structure RecordingRow where
  id : String
  work : String
  comment : String
  created_by : String
deriving DecidableEq

/-- Modelled from the spec: the acting user with the capability interface
consumed by the core (§6: `mayCreate`, `mayEdit(ownerUsername)`,
`mayDelete`); `src/database/users.rs` is not part of the sources. -/
structure User where
  username : String
  may_create : Bool
  may_edit : String → Bool
  may_delete : Bool

/-- The backing store: the four related tables, each as a list of rows in
insertion order. -/
structure DB where
  mediums : List MediumRow
  track_sets : List TrackSetRow
  tracks : List TrackRow
  recordings : List RecordingRow
deriving DecidableEq

/-- Error taxonomy surfaced by the component (§7): `forbidden` from the
authorization gate, `uniqueViolation` for a primary-key collision from the
storage layer, `decodeError` for a malformed `work_parts` field on read,
`missingRecording` when a referenced recording cannot be resolved on read,
and `referential` when the Recording collaborator refuses to create a
referenced recording on write. -/
inductive DbError where
  | forbidden
  | uniqueViolation
  | decodeError
  | missingRecording (id : String)
  | referential (id : String)
deriving DecidableEq

/-- A stateful database computation: the diesel connection threaded through
the mutating code.  Even a failing computation returns the (possibly
partially mutated) state; `transaction` discards it. -/
def DbM (α : Type) : Type := DB → Except DbError α × DB

/-- Model of `conn.transaction`: on success the new state is kept, on any
error every change from the computation is rolled back. -/
def transaction (m : DbM α) : DbM α := fun db =>
  match m db with
  | (.ok a, db') => (.ok a, db')
  | (.error e, _) => (.error e, db)

/-! ## Row-level operations -/

/-- Lookup of a medium row by id (mediums.rs lines 210-216): first row of
the filtered table. -/
def findMediumRow (db : DB) (id : String) : Option MediumRow :=
  (db.mediums.filter (fun r => r.id == id)).head?

/-- Modelled from the spec: `getRecording(id) -> Recording | absent`
(§6); `get_recording` of the Recording collaborator is not part of the
sources. -/
def get_recording (db : DB) (id : String) : Option Recording :=
  match (db.recordings.filter (fun r => r.id == id)).head? with
  | some r => some ⟨r.id, r.work, r.comment⟩
  | none => none

/-- Modelled from the spec: `upsertRecording(recording, actingUser) ->
success | permission/validation failure` (§6), itself permission-gated
(§2) in the same owner-based style as the medium store; its failure to
create a referenced recording surfaces as a `referential` error (§7).
`update_recording` of the Recording collaborator is not part of the
sources. -/
def update_recording (rec : Recording) (u : User) : DbM Unit := fun db =>
  let old := (db.recordings.filter (fun r => r.id == rec.id)).head?
  let allowed := match old with
    | some r => u.may_edit r.created_by
    | none => u.may_create
  if allowed then
    (.ok (), { db with recordings :=
      db.recordings.filter (fun r => !(r.id == rec.id)) ++
        [⟨rec.id, rec.work, rec.comment, u.username⟩] })
  else (.error (.referential rec.id), db)

/-- Deletion of a medium row by id with the cascade to its track sets and
tracks (mediums.rs lines 92-94: "This will also delete the track sets and
tracks"). -/
def cascadeDelete (db : DB) (id : String) : DB :=
  let tsIds := (db.track_sets.filter (fun ts => ts.medium == id)).map
    (fun ts => ts.id)
  { db with
    mediums := db.mediums.filter (fun r => !(r.id == id)),
    track_sets := db.track_sets.filter (fun ts => !(ts.medium == id)),
    tracks := db.tracks.filter (fun t => !(tsIds.contains t.track_set)) }

/-- Insert into `mediums`, failing with a storage error when the primary
key is already taken. -/
def insertMediumRow (r : MediumRow) : DbM Unit := fun db =>
  if db.mediums.any (fun x => x.id == r.id) then (.error .uniqueViolation, db)
  else (.ok (), { db with mediums := db.mediums ++ [r] })

/-- Insert into `track_sets`, failing with a storage error when the primary
key is already taken. -/
def insertTrackSetRow (r : TrackSetRow) : DbM Unit := fun db =>
  if db.track_sets.any (fun x => x.id == r.id) then
    (.error .uniqueViolation, db)
  else (.ok (), { db with track_sets := db.track_sets ++ [r] })

/-- Insert into `tracks`, failing with a storage error when the primary key
is already taken. -/
def insertTrackRow (r : TrackRow) : DbM Unit := fun db =>
  if db.tracks.any (fun x => x.id == r.id) then (.error .uniqueViolation, db)
  else (.ok (), { db with tracks := db.tracks ++ [r] })

/-! ## Upsert -/

/-- Inner loop of `update_medium` over the tracks of one track set
(mediums.rs lines 135-153).  `k` is the position in the random-id stream
`gen`; the counter after the loop is returned. -/
def insertTracks (tsId : Int) (gen : Nat → Int) :
    Nat → Nat → List Track → DbM Nat
  | k, _, [] => fun db => (.ok k, db)
  | k, i, t :: rest => fun db =>
    match insertTrackRow
        ⟨gen k, tsId, i32ofNat i, encodeWorkParts t.work_parts⟩ db with
    | (.error e, db1) => (.error e, db1)
    | (.ok _, db1) => insertTracks tsId gen (k + 1) (i + 1) rest db1

/-- Outer loop of `update_medium` over the track sets (mediums.rs lines
111-154): create the referenced recording when absent, insert the track-set
row with a fresh random id, then insert its tracks. -/
def insertTrackSets (mid : String) (u : User) (gen : Nat → Int) :
    Nat → Nat → List TrackSet → DbM Nat
  | k, _, [] => fun db => (.ok k, db)
  | k, i, ts :: rest => fun db =>
    let step1 : Except DbError Unit × DB :=
      match get_recording db ts.recording.id with
      | none => update_recording ts.recording u db
      | some _ => (.ok (), db)
    match step1 with
    | (.error e, db1) => (.error e, db1)
    | (.ok _, db1) =>
      match insertTrackSetRow
          ⟨gen k, mid, i32ofNat i, ts.recording.id⟩ db1 with
      | (.error e, db2) => (.error e, db2)
      | (.ok _, db2) =>
        match insertTracks (gen k) gen (k + 1) 0 ts.tracks db2 with
        | (.error e, db3) => (.error e, db3)
        | (.ok k2, db3) => insertTrackSets mid u gen k2 (i + 1) rest db3

/-- Authorization decision of `update_medium` (mediums.rs lines 82-85): an
existing row requires edit rights over its stored owner, an absent row
requires the create capability. -/
def upsertAllowed (db : DB) (m : Medium) (u : User) : Bool :=
  match findMediumRow db m.id with
  | some row => u.may_edit row.created_by
  | none => u.may_create

/-- Body of the `update_medium` transaction (mediums.rs lines 80-159):
authorize against the stored owner (or the create capability), delete the
old aggregate, insert the medium row with the acting user as owner, then
insert the track sets and tracks. -/
def update_medium_body (m : Medium) (u : User) (gen : Nat → Int) :
    DbM Unit := fun db =>
  if upsertAllowed db m u then
    match insertMediumRow ⟨m.id, m.name, m.discid, u.username⟩
        (cascadeDelete db m.id) with
    | (.error e, db2) => (.error e, db2)
    | (.ok _, db2) =>
      match insertTrackSets m.id u gen 0 0 m.tracks db2 with
      | (.error e, db3) => (.error e, db3)
      | (.ok _, db3) => (.ok (), db3)
  else (.error .forbidden, db)

/-- Update an existing medium or insert a new one (mediums.rs lines
78-163): the whole body runs inside one transaction. -/
def update_medium (m : Medium) (u : User) (gen : Nat → Int) : DbM Unit :=
  transaction (update_medium_body m u gen)

/-- Delete an existing medium (mediums.rs lines 278-285): gated on the
global delete capability, a single cascading delete statement. -/
def delete_medium (id : String) (u : User) : DbM Unit := fun db =>
  if u.may_delete then (.ok (), cascadeDelete db id)
  else (.error .forbidden, db)

/-! ## Reads -/

/-- Track-set rows of a medium in index order (mediums.rs lines 220-223);
`ORDER BY` is modelled by a stable insertion sort on the index column. -/
def sortedTsRows (db : DB) (mid : String) : List TrackSetRow :=
  List.insertionSort (fun a b => a.index ≤ b.index)
    (db.track_sets.filter (fun ts => ts.medium == mid))

/-- Track rows of a track set in index order (mediums.rs lines 249-252). -/
def sortedTrackRows (db : DB) (tsId : Int) : List TrackRow :=
  List.insertionSort (fun a b => a.index ≤ b.index)
    (db.tracks.filter (fun t => t.track_set == tsId))

/-- Decoding loop over the track rows of one track set (mediums.rs lines
254-268). -/
def decodeTracks : List TrackRow → Option (List Track)
  | [] => some []
  | r :: rs =>
    match decodeWorkParts r.work_parts with
    | none => none
    | some l =>
      match decodeTracks rs with
      | none => none
      | some ts => some (⟨l⟩ :: ts)

/-- Convert a track-set row to a track set (mediums.rs lines 243-273):
resolve the recording (a missing one is a fatal read error), then load and
decode the tracks in index order. -/
def get_track_set_from_row (db : DB) (row : TrackSetRow) :
    Except DbError TrackSet :=
  match get_recording db row.recording with
  | none => .error (.missingRecording row.recording)
  | some rec =>
    match decodeTracks (sortedTrackRows db row.id) with
    | none => .error .decodeError
    | some trs => .ok ⟨rec, trs⟩

/-- Loop of `get_medium_data` over the track-set rows (mediums.rs lines
225-230). -/
def mapTrackSets (db : DB) : List TrackSetRow → Except DbError (List TrackSet)
  | [] => .ok []
  | r :: rs =>
    match get_track_set_from_row db r with
    | .error e => .error e
    | .ok ts =>
      match mapTrackSets db rs with
      | .error e => .error e
      | .ok tss => .ok (ts :: tss)

/-- Reconstruction of a medium from its row (mediums.rs lines 219-240). -/
def get_medium_data (db : DB) (row : MediumRow) : Except DbError Medium :=
  match mapTrackSets db (sortedTsRows db row.id) with
  | .error e => .error e
  | .ok tss => .ok ⟨row.id, row.name, row.discid, tss⟩

/-- Get an existing medium and all related data (mediums.rs lines
166-173). -/
def get_medium (db : DB) (id : String) : Except DbError (Option Medium) :=
  match findMediumRow db id with
  | none => .ok none
  | some row =>
    match get_medium_data db row with
    | .error e => .error e
    | .ok m => .ok (some m)

/-- Loop shared by the two list queries (mediums.rs lines 185-188 and
201-204): reconstruct each medium row in turn. -/
def mapMediumRows (db : DB) : List MediumRow → Except DbError (List Medium)
  | [] => .ok []
  | r :: rs =>
    match get_medium_data db r with
    | .error e => .error e
    | .ok m =>
      match mapMediumRows db rs with
      | .error e => .error e
      | .ok ms => .ok (m :: ms)

/-- Inner join of `mediums` with `track_sets` filtered on the recording
column, selecting the medium columns (mediums.rs lines 179-183): one medium
row per matching track-set row. -/
def joinRowsForRecording (db : DB) (rid : String) : List MediumRow :=
  (db.track_sets.filter (fun ts => ts.recording == rid)).flatMap
    (fun ts => db.mediums.filter (fun r => r.id == ts.medium))

/-- Get mediums that contain a specific recording (mediums.rs lines
176-191). -/
def get_mediums_for_recording (db : DB) (rid : String) :
    Except DbError (List Medium) :=
  mapMediumRows db (joinRowsForRecording db rid)

/-- Get mediums that have a specific DiscID (mediums.rs lines 194-207): the
nullable `discid` column equals the query value, so a `NULL` disc id never
matches. -/
def get_mediums_by_discid (db : DB) (q : String) :
    Except DbError (List Medium) :=
  mapMediumRows db (db.mediums.filter (fun r => r.discid == some q))

/-! ## Shapes of the rows written by a successful upsert -/

/-- Track rows written for one track set by a successful `insertTracks`
run. -/
def trackRowsFor (tsId : Int) (gen : Nat → Int) :
    Nat → Nat → List Track → List TrackRow
  | _, _, [] => []
  | k, i, t :: rest =>
    ⟨gen k, tsId, i32ofNat i, encodeWorkParts t.work_parts⟩ ::
      trackRowsFor tsId gen (k + 1) (i + 1) rest

/-- Track-set rows written by a successful `insertTrackSets` run. -/
def tsRowsFor (mid : String) (gen : Nat → Int) :
    Nat → Nat → List TrackSet → List TrackSetRow
  | _, _, [] => []
  | k, i, ts :: rest =>
    ⟨gen k, mid, i32ofNat i, ts.recording.id⟩ ::
      tsRowsFor mid gen (k + 1 + ts.tracks.length) (i + 1) rest

/-- Track rows written for all track sets by a successful
`insertTrackSets` run. -/
def allTrackRowsFor (gen : Nat → Int) : Nat → List TrackSet → List TrackRow
  | _, [] => []
  | k, ts :: rest =>
    trackRowsFor (gen k) gen (k + 1) 0 ts.tracks ++
      allTrackRowsFor gen (k + 1 + ts.tracks.length) rest

/-- Identifiers assigned to the track-set rows by a successful
`insertTrackSets` run. -/
def tsIdList (gen : Nat → Int) : Nat → List TrackSet → List Int
  | _, [] => []
  | k, ts :: rest => gen k :: tsIdList gen (k + 1 + ts.tracks.length) rest

/-! ## Store invariants used as hypotheses -/

/-- Referential integrity of `tracks` towards `track_sets`. -/
def TracksWF (db : DB) : Prop :=
  ∀ t ∈ db.tracks, ∃ r ∈ db.track_sets, r.id = t.track_set

/-- Referential integrity of `track_sets` towards `mediums`. -/
def TrackSetsWF (db : DB) : Prop :=
  ∀ ts ∈ db.track_sets, ∃ r ∈ db.mediums, r.id = ts.medium

/-- Primary-key uniqueness of the `mediums` table. -/
def MediumsNodup (db : DB) : Prop :=
  (db.mediums.map (fun r => r.id)).Nodup

/-- Observable content of a track set for the round-trip property: the id
of the referenced recording and the work-part lists of the tracks in
order. -/
def tsShape (ts : TrackSet) : String × List (List Nat) :=
  (ts.recording.id, ts.tracks.map (fun t => t.work_parts))

/-! ## Lemmas on the work-part encoding -/

theorem dval_digitChar {d : Nat} (h : d < 10) : dval (digitChar d) = d := by
  interval_cases d <;> rfl

theorem isDigit_digitChar {d : Nat} (h : d < 10) :
    (digitChar d).isDigit = true := by
  interval_cases d <;> rfl

theorem natDigitsRevFuel_congr :
    ∀ {f1 : Nat} {f2 n : Nat}, n < f1 → n < f2 →
      natDigitsRevFuel f1 n = natDigitsRevFuel f2 n
  | f + 1, g + 1, n, h1, h2 => by
    rw [natDigitsRevFuel, natDigitsRevFuel]
    split
    · rfl
    · next h =>
      have hd : n / 10 < n := Nat.div_lt_self (by omega) (by omega)
      have hrec : natDigitsRevFuel f (n / 10) = natDigitsRevFuel g (n / 10) :=
        natDigitsRevFuel_congr (by omega) (by omega)
      rw [hrec]

theorem natDigitsRev_eq (n : Nat) :
    natDigitsRev n = if n < 10 then [digitChar n]
      else digitChar (n % 10) :: natDigitsRev (n / 10) := by
  show natDigitsRevFuel (n + 1) n = _
  rw [natDigitsRevFuel]
  split
  · rfl
  · next h =>
    have hrec : natDigitsRevFuel n (n / 10) =
        natDigitsRevFuel (n / 10 + 1) (n / 10) :=
      natDigitsRevFuel_congr (Nat.div_lt_self (by omega) (by omega))
        (Nat.lt_succ_self _)
    rw [hrec]
    rfl

theorem natDigitsRev_ne_nil (n : Nat) : natDigitsRev n ≠ [] := by
  rw [natDigitsRev_eq]
  split <;> simp

theorem isDigit_of_mem_natDigitsRev {n : Nat} :
    ∀ c ∈ natDigitsRev n, c.isDigit = true := by
  induction n using Nat.strong_induction_on with
  | _ n ih =>
    rw [natDigitsRev_eq]
    split
    · next h =>
      intro c hc
      rw [List.mem_singleton] at hc
      exact hc ▸ isDigit_digitChar h
    · next h =>
      intro c hc
      rcases List.mem_cons.mp hc with hc | hc
      · exact hc ▸ isDigit_digitChar (Nat.mod_lt _ (by omega))
      · exact ih (n / 10) (Nat.div_lt_self (by omega) (by omega)) c hc

theorem foldr_natDigitsRev (n : Nat) :
    (natDigitsRev n).foldr (fun c a => a * 10 + dval c) 0 = n := by
  induction n using Nat.strong_induction_on with
  | _ n ih =>
    rw [natDigitsRev_eq]
    split
    · next h => simp [dval_digitChar h]
    · next h =>
      rw [List.foldr_cons,
        ih (n / 10) (Nat.div_lt_self (by omega) (by omega)),
        dval_digitChar (Nat.mod_lt _ (by omega))]
      omega

theorem parseSegment_natReprChars {n : Nat} (h : n < 2 ^ 64) :
    parseSegment (natReprChars n) = some n := by
  have hne : natReprChars n ≠ [] := by
    rw [natReprChars]
    simp only [ne_eq, List.reverse_eq_nil_iff]
    exact natDigitsRev_ne_nil n
  obtain ⟨c, l', hcl⟩ := List.exists_cons_of_ne_nil hne
  have hdig : ∀ d ∈ natReprChars n, d.isDigit = true := fun d hd =>
    isDigit_of_mem_natDigitsRev d (List.mem_reverse.mp hd)
  have hcdig : c.isDigit = true :=
    hdig c (by rw [hcl]; exact List.mem_cons_self c l')
  have hcne : c ≠ '+' := by
    intro hc
    rw [hc] at hcdig
    exact absurd hcdig (by decide)
  have hval : (natReprChars n).foldl (fun a c => a * 10 + dval c) 0 = n := by
    rw [natReprChars, List.foldl_reverse]
    exact foldr_natDigitsRev n
  rw [parseSegment, hcl]
  simp only [List.head?_cons]
  rw [if_neg (by simp [hcne]), ← hcl, parseDigits, if_neg (by rw [hcl]; simp),
    if_pos (by rw [List.all_eq_true]; exact hdig), hval, if_pos h]

theorem splitCommaChars_ne_nil (l : List Char) : splitCommaChars l ≠ [] := by
  induction l with
  | nil => simp [splitCommaChars]
  | cons c rest ih =>
    rw [splitCommaChars]
    split
    · simp
    · cases h : splitCommaChars rest with
      | nil => exact absurd h ih
      | cons seg segs => simp

theorem splitCommaChars_commaFree {x : List Char}
    (hx : ∀ c ∈ x, c ≠ ',') : splitCommaChars x = [x] := by
  induction x with
  | nil => rfl
  | cons c x' ih =>
    rw [splitCommaChars, if_neg (hx c (List.mem_cons_self c x')),
      ih (fun d hd => hx d (List.mem_cons_of_mem c hd))]

theorem splitCommaChars_append_comma {x : List Char}
    (hx : ∀ c ∈ x, c ≠ ',') (ys : List Char) :
    splitCommaChars (x ++ ',' :: ys) = x :: splitCommaChars ys := by
  induction x with
  | nil =>
    rw [List.nil_append, splitCommaChars, if_pos rfl]
  | cons c x' ih =>
    rw [List.cons_append, splitCommaChars,
      if_neg (hx c (List.mem_cons_self c x')),
      ih (fun d hd => hx d (List.mem_cons_of_mem c hd))]

theorem splitCommaChars_joinCommaChars {l : List (List Char)} (hl : l ≠ [])
    (hfree : ∀ x ∈ l, ∀ c ∈ x, c ≠ ',') :
    splitCommaChars (joinCommaChars l) = l := by
  induction l with
  | nil => exact absurd rfl hl
  | cons x rest ih =>
    cases rest with
    | nil =>
      rw [joinCommaChars]
      exact splitCommaChars_commaFree (hfree x (List.mem_cons_self x []))
    | cons y rest' =>
      rw [joinCommaChars,
        splitCommaChars_append_comma (hfree x (List.mem_cons_self x _)),
        ih (List.cons_ne_nil y rest')
          (fun z hz c hc => hfree z (List.mem_cons_of_mem x hz) c hc)]
      exact List.cons_ne_nil y rest'

theorem parseSegments_map_natReprChars {l : List Nat}
    (hb : ∀ p ∈ l, p < 2 ^ 64) :
    parseSegments (l.map natReprChars) = some l := by
  induction l with
  | nil => rfl
  | cons p rest ih =>
    rw [List.map_cons, parseSegments,
      parseSegment_natReprChars (hb p (List.mem_cons_self p rest)),
      ih (fun q hq => hb q (List.mem_cons_of_mem p hq))]

theorem decodeWorkParts_encodeWorkParts {l : List Nat} (hne : l ≠ [])
    (hb : ∀ p ∈ l, p < 2 ^ 64) :
    decodeWorkParts (encodeWorkParts l) = some l := by
  have hdata : (encodeWorkParts l).data = joinCommaChars (l.map natReprChars) :=
    rfl
  rw [decodeWorkParts, hdata,
    splitCommaChars_joinCommaChars (by simpa using hne)
      (fun x hx c hc => by
        obtain ⟨p, _, hp⟩ := List.mem_map.mp hx
        have : c.isDigit = true :=
          isDigit_of_mem_natDigitsRev c (List.mem_reverse.mp (hp ▸ hc))
        intro hcomma
        rw [hcomma] at this
        exact absurd this (by decide))]
  exact parseSegments_map_natReprChars hb

theorem decodeWorkParts_empty : decodeWorkParts "" = none := rfl

theorem encodeWorkParts_nil : encodeWorkParts [] = "" := rfl

/-! ## Lemmas on the row shapes written by a successful upsert -/

theorem i32ofNat_eq {n : Nat} (h : n < 2 ^ 31) : i32ofNat n = (n : Int) := by
  unfold i32ofNat
  omega

theorem mem_tsRowsFor {mid : String} {gen : Nat → Int} :
    ∀ {sets : List TrackSet} {k i : Nat} {r : TrackSetRow},
      r ∈ tsRowsFor mid gen k i sets →
      r.medium = mid ∧ ∃ j, i ≤ j ∧ j < i + sets.length ∧ r.index = i32ofNat j
  | ts :: rest, k, i, r, hr => by
    rcases List.mem_cons.mp hr with hr | hr
    · subst hr
      exact ⟨rfl, i, le_refl i, by simp, rfl⟩
    · obtain ⟨hm, j, hij, hj, hidx⟩ := mem_tsRowsFor hr
      exact ⟨hm, j, by omega, by simp; omega, hidx⟩

theorem mem_trackRowsFor {tsId : Int} {gen : Nat → Int} :
    ∀ {trs : List Track} {k i : Nat} {r : TrackRow},
      r ∈ trackRowsFor tsId gen k i trs →
      r.track_set = tsId ∧ ∃ j, i ≤ j ∧ j < i + trs.length ∧ r.index = i32ofNat j
  | t :: rest, k, i, r, hr => by
    rcases List.mem_cons.mp hr with hr | hr
    · subst hr
      exact ⟨rfl, i, le_refl i, by simp, rfl⟩
    · obtain ⟨hm, j, hij, hj, hidx⟩ := mem_trackRowsFor hr
      exact ⟨hm, j, by omega, by simp; omega, hidx⟩

theorem sorted_tsRowsFor {mid : String} {gen : Nat → Int} :
    ∀ {sets : List TrackSet} {k i : Nat}, i + sets.length ≤ 2 ^ 31 →
      List.Sorted (fun a b : TrackSetRow => a.index ≤ b.index)
        (tsRowsFor mid gen k i sets)
  | [], _, _, _ => List.sorted_nil
  | ts :: rest, k, i, h => by
    rw [tsRowsFor, List.sorted_cons]
    refine ⟨fun b hb => ?_, sorted_tsRowsFor (by simp at h ⊢; omega)⟩
    obtain ⟨-, j, hij, hj, hidx⟩ := mem_tsRowsFor hb
    simp only [List.length_cons] at h
    show i32ofNat i ≤ b.index
    rw [hidx, i32ofNat_eq (by omega), i32ofNat_eq (by omega)]
    exact_mod_cast Nat.le_of_succ_le hij

theorem sorted_trackRowsFor {tsId : Int} {gen : Nat → Int} :
    ∀ {trs : List Track} {k i : Nat}, i + trs.length ≤ 2 ^ 31 →
      List.Sorted (fun a b : TrackRow => a.index ≤ b.index)
        (trackRowsFor tsId gen k i trs)
  | [], _, _, _ => List.sorted_nil
  | t :: rest, k, i, h => by
    rw [trackRowsFor, List.sorted_cons]
    refine ⟨fun b hb => ?_, sorted_trackRowsFor (by simp at h ⊢; omega)⟩
    obtain ⟨-, j, hij, hj, hidx⟩ := mem_trackRowsFor hb
    simp only [List.length_cons] at h
    show i32ofNat i ≤ b.index
    rw [hidx, i32ofNat_eq (by omega), i32ofNat_eq (by omega)]
    exact_mod_cast Nat.le_of_succ_le hij

theorem map_id_tsRowsFor {mid : String} {gen : Nat → Int} :
    ∀ {sets : List TrackSet} {k i : Nat},
      (tsRowsFor mid gen k i sets).map (fun r => r.id) = tsIdList gen k sets
  | [], _, _ => rfl
  | ts :: rest, k, i => by
    rw [tsRowsFor, tsIdList, List.map_cons, map_id_tsRowsFor]

theorem track_set_mem_allTrackRowsFor {gen : Nat → Int} :
    ∀ {sets : List TrackSet} {k : Nat} {r : TrackRow},
      r ∈ allTrackRowsFor gen k sets → r.track_set ∈ tsIdList gen k sets
  | ts :: rest, k, r, hr => by
    rw [allTrackRowsFor] at hr
    rw [tsIdList]
    rcases List.mem_append.mp hr with hr | hr
    · rw [(mem_trackRowsFor hr).1]
      exact List.mem_cons_self _ _
    · exact List.mem_cons_of_mem _ (track_set_mem_allTrackRowsFor hr)

theorem decodeTracks_trackRowsFor {tsId : Int} {gen : Nat → Int} :
    ∀ {trs : List Track} {k i : Nat},
      (∀ t ∈ trs, t.work_parts ≠ [] ∧ ∀ p ∈ t.work_parts, p < 2 ^ 64) →
      decodeTracks (trackRowsFor tsId gen k i trs) = some trs
  | [], _, _, _ => rfl
  | t :: rest, k, i, h => by
    rw [trackRowsFor, decodeTracks,
      decodeWorkParts_encodeWorkParts (h t (List.mem_cons_self t rest)).1
        (h t (List.mem_cons_self t rest)).2,
      decodeTracks_trackRowsFor (fun s hs => h s (List.mem_cons_of_mem t hs))]

/-! ## Success specifications of the mutating operations -/

theorem insertMediumRow_ok {r : MediumRow} {db : DB} {a : Unit} {db' : DB}
    (h : insertMediumRow r db = (.ok a, db')) :
    db' = { db with mediums := db.mediums ++ [r] } ∧
    ∀ x ∈ db.mediums, x.id ≠ r.id := by
  rw [insertMediumRow] at h
  split at h
  · exact absurd h (by simp)
  · next hc =>
    refine ⟨(Prod.mk.injEq _ _ _ _ ▸ h).2.symm ▸ rfl, fun x hx => ?_⟩
    intro hid
    exact hc (List.any_eq_true.mpr ⟨x, hx, by simp [hid]⟩)

theorem insertTrackSetRow_ok {r : TrackSetRow} {db : DB} {a : Unit} {db' : DB}
    (h : insertTrackSetRow r db = (.ok a, db')) :
    db' = { db with track_sets := db.track_sets ++ [r] } ∧
    ∀ x ∈ db.track_sets, x.id ≠ r.id := by
  rw [insertTrackSetRow] at h
  split at h
  · exact absurd h (by simp)
  · next hc =>
    refine ⟨(Prod.mk.injEq _ _ _ _ ▸ h).2.symm ▸ rfl, fun x hx => ?_⟩
    intro hid
    exact hc (List.any_eq_true.mpr ⟨x, hx, by simp [hid]⟩)

theorem insertTrackRow_ok {r : TrackRow} {db : DB} {a : Unit} {db' : DB}
    (h : insertTrackRow r db = (.ok a, db')) :
    db' = { db with tracks := db.tracks ++ [r] } ∧
    ∀ x ∈ db.tracks, x.id ≠ r.id := by
  rw [insertTrackRow] at h
  split at h
  · exact absurd h (by simp)
  · next hc =>
    refine ⟨(Prod.mk.injEq _ _ _ _ ▸ h).2.symm ▸ rfl, fun x hx => ?_⟩
    intro hid
    exact hc (List.any_eq_true.mpr ⟨x, hx, by simp [hid]⟩)

theorem update_recording_ok {rec : Recording} {u : User} {db : DB} {a : Unit}
    {db' : DB} (h : update_recording rec u db = (.ok a, db')) :
    db'.mediums = db.mediums ∧ db'.track_sets = db.track_sets ∧
    db'.tracks = db.tracks ∧
    (∃ r ∈ db'.recordings, r.id = rec.id) ∧
    (∀ rid, (∃ r ∈ db.recordings, r.id = rid) →
      ∃ r ∈ db'.recordings, r.id = rid) := by
  rw [update_recording] at h
  split at h
  · injection h with h1 h2
    subst h2
    refine ⟨rfl, rfl, rfl, ⟨⟨rec.id, rec.work, rec.comment, u.username⟩,
      List.mem_append_right _ (List.mem_singleton.mpr rfl), rfl⟩, ?_⟩
    rintro rid ⟨r, hr, hid⟩
    by_cases hcase : r.id = rec.id
    · exact ⟨⟨rec.id, rec.work, rec.comment, u.username⟩,
        List.mem_append_right _ (List.mem_singleton.mpr rfl), by
          rw [← hid, hcase]⟩
    · exact ⟨r, List.mem_append_left _
        (List.mem_filter.mpr ⟨hr, by simp [hcase]⟩), hid⟩
  · exact absurd h (by simp)

theorem exists_of_get_recording_some {db : DB} {rid : String} {rec : Recording}
    (h : get_recording db rid = some rec) :
    rec.id = rid ∧ ∃ r ∈ db.recordings, r.id = rid := by
  rw [get_recording] at h
  cases hfl : db.recordings.filter (fun r => r.id == rid) with
  | nil => rw [hfl] at h; exact absurd h (by simp)
  | cons r0 rest =>
    rw [hfl] at h
    simp only [List.head?_cons, Option.some.injEq] at h
    have hr0 : r0 ∈ db.recordings.filter (fun r => r.id == rid) :=
      hfl ▸ List.mem_cons_self r0 rest
    obtain ⟨hmem, hpred⟩ := List.mem_filter.mp hr0
    have hid : r0.id = rid := by simpa using hpred
    exact ⟨by rw [← h]; exact hid, ⟨r0, hmem, hid⟩⟩

theorem get_recording_of_present {db : DB} {rid : String}
    (h : ∃ r ∈ db.recordings, r.id = rid) :
    ∃ rec, get_recording db rid = some rec ∧ rec.id = rid := by
  obtain ⟨r, hr, hid⟩ := h
  rw [get_recording]
  cases hfl : db.recordings.filter (fun x => x.id == rid) with
  | nil =>
    exact absurd (hfl ▸ List.mem_filter.mpr ⟨hr, by simp [hid]⟩)
      (List.not_mem_nil r)
  | cons r0 rest =>
    have hr0 : r0 ∈ db.recordings.filter (fun x => x.id == rid) :=
      hfl ▸ List.mem_cons_self r0 rest
    have hid0 : r0.id = rid := by simpa using (List.mem_filter.mp hr0).2
    exact ⟨⟨r0.id, r0.work, r0.comment⟩, by simp, hid0⟩

theorem insertTracks_ok {tsId : Int} {gen : Nat → Int} :
    ∀ {trs : List Track} {k i : Nat} {db : DB} {k' : Nat} {db' : DB},
      insertTracks tsId gen k i trs db = (.ok k', db') →
      k' = k + trs.length ∧ db'.mediums = db.mediums ∧
      db'.track_sets = db.track_sets ∧ db'.recordings = db.recordings ∧
      db'.tracks = db.tracks ++ trackRowsFor tsId gen k i trs
  | [], k, i, db, k', db', h => by
    rw [insertTracks] at h
    injection h with h1 h2
    obtain rfl : k = k' := by simpa using h1
    subst h2
    simp [trackRowsFor]
  | t :: rest, k, i, db, k', db', h => by
    simp only [insertTracks] at h
    split at h
    · exact absurd h (by simp)
    · next a db1 heq =>
      obtain ⟨hdb1, -⟩ := insertTrackRow_ok heq
      obtain ⟨hk, hm, hts, hrec, htr⟩ := insertTracks_ok h
      subst hdb1
      refine ⟨by simp only [List.length_cons]; omega, by simpa using hm,
        by simpa using hts, by simpa using hrec, ?_⟩
      rw [htr]
      simp [trackRowsFor]

theorem insertTrackSets_cons_elim {mid : String} {u : User} {gen : Nat → Int}
    {k i : Nat} {ts : TrackSet} {rest : List TrackSet} {db : DB} {k' : Nat}
    {db' : DB}
    (h : insertTrackSets mid u gen k i (ts :: rest) db = (.ok k', db')) :
    ∃ db1 db2 db3 : DB,
      db1.mediums = db.mediums ∧ db1.track_sets = db.track_sets ∧
      db1.tracks = db.tracks ∧
      (∃ r ∈ db1.recordings, r.id = ts.recording.id) ∧
      (∀ rid, (∃ r ∈ db.recordings, r.id = rid) →
        ∃ r ∈ db1.recordings, r.id = rid) ∧
      insertTrackSetRow ⟨gen k, mid, i32ofNat i, ts.recording.id⟩ db1 =
        (.ok (), db2) ∧
      insertTracks (gen k) gen (k + 1) 0 ts.tracks db2 =
        (.ok (k + 1 + ts.tracks.length), db3) ∧
      insertTrackSets mid u gen (k + 1 + ts.tracks.length) (i + 1) rest db3 =
        (.ok k', db') := by
  simp only [insertTrackSets] at h
  rcases hrec0 : get_recording db ts.recording.id with _ | rec0
  · simp only [hrec0] at h
    split at h
    · exact absurd h (by simp)
    · next a db1 heq1 =>
      obtain ⟨hm1, hts1, htr1, hpres1, hmono1⟩ := update_recording_ok heq1
      split at h
      · exact absurd h (by simp)
      · next a2 db2 heq2 =>
        split at h
        · exact absurd h (by simp)
        · next k2 db3 heq3 =>
          obtain rfl := (insertTracks_ok heq3).1
          exact ⟨db1, db2, db3, hm1, hts1, htr1, hpres1, hmono1, heq2,
            heq3, h⟩
  · simp only [hrec0] at h
    split at h
    · exact absurd h (by simp)
    · next a2 db2 heq2 =>
      split at h
      · exact absurd h (by simp)
      · next k2 db3 heq3 =>
        obtain rfl := (insertTracks_ok heq3).1
        exact ⟨db, db2, db3, rfl, rfl, rfl,
          (exists_of_get_recording_some hrec0).2, fun rid hp => hp, heq2,
          heq3, h⟩

theorem insertTrackSets_ok {mid : String} {u : User} {gen : Nat → Int} :
    ∀ {sets : List TrackSet} {k i : Nat} {db : DB} {k' : Nat} {db' : DB},
      insertTrackSets mid u gen k i sets db = (.ok k', db') →
      db'.mediums = db.mediums ∧
      db'.track_sets = db.track_sets ++ tsRowsFor mid gen k i sets ∧
      db'.tracks = db.tracks ++ allTrackRowsFor gen k sets ∧
      (∀ r ∈ tsRowsFor mid gen k i sets, ∀ x ∈ db.track_sets, r.id ≠ x.id) ∧
      List.Pairwise (fun a b => a ≠ b) (tsIdList gen k sets) ∧
      (∀ ts ∈ sets, ∃ r ∈ db'.recordings, r.id = ts.recording.id) ∧
      (∀ rid, (∃ r ∈ db.recordings, r.id = rid) →
        ∃ r ∈ db'.recordings, r.id = rid)
  | [], k, i, db, k', db', h => by
    rw [insertTrackSets] at h
    injection h with h1 h2
    subst h2
    simp [tsRowsFor, allTrackRowsFor, tsIdList]
  | ts :: rest, k, i, db, k', db', h => by
    obtain ⟨db1, db2, db3, hm1, hts1, htr1, hpres1, hmono1, heq2, heq3, hrest⟩ :=
      insertTrackSets_cons_elim h
    obtain ⟨hdb2, hfresh⟩ := insertTrackSetRow_ok heq2
    subst hdb2
    obtain ⟨-, hm3, hts3, hrec3, htr3⟩ := insertTracks_ok heq3
    obtain ⟨ihm, ihts, ihtr, ihfresh, ihpw, ihpres, ihmono⟩ :=
      insertTrackSets_ok hrest
    simp only at hm3 hts3 hrec3 htr3
    have hrow_mem : (⟨gen k, mid, i32ofNat i, ts.recording.id⟩ : TrackSetRow) ∈
        db3.track_sets := by
      rw [hts3, hts1]
      exact List.mem_append_right _ (List.mem_singleton.mpr rfl)
    refine ⟨?_, ?_, ?_, ?_, ?_, ?_, ?_⟩
    · rw [ihm, hm3, hm1]
    · rw [ihts, hts3, hts1, tsRowsFor, List.append_assoc, List.singleton_append]
    · rw [ihtr, htr3, htr1, allTrackRowsFor, ← List.append_assoc]
    · rw [tsRowsFor]
      intro r hr x hx
      rcases List.mem_cons.mp hr with hr | hr
      · subst hr
        exact (hfresh x (hts1 ▸ hx)).symm
      · exact ihfresh r hr x (by
          rw [hts3, hts1]
          exact List.mem_append_left _ hx)
    · rw [tsIdList]
      refine List.Pairwise.cons (fun b hb => ?_) ihpw
      rw [← map_id_tsRowsFor] at hb
      obtain ⟨r, hr, hrid⟩ := List.mem_map.mp hb
      have := ihfresh r hr _ hrow_mem
      simp only at this
      rw [← hrid]
      exact fun hcontr => this hcontr.symm
    · intro ts' hts'
      rcases List.mem_cons.mp hts' with hts' | hts'
      · subst hts'
        exact ihmono _ (by rw [hrec3]; exact hpres1)
      · exact ihpres ts' hts'
    · intro rid hp
      exact ihmono rid (by rw [hrec3]; exact hmono1 rid hp)

theorem transaction_error {α : Type} {mo : DbM α} {db : DB} {e : DbError}
    {db' : DB} (h : transaction mo db = (.error e, db')) : db' = db := by
  rw [transaction] at h
  split at h
  · exact absurd h (by simp)
  · exact ((Prod.mk.injEq _ _ _ _ ▸ h).2).symm

theorem transaction_ok_elim {α : Type} {mo : DbM α} {db : DB} {a : α}
    {db' : DB} (h : transaction mo db = (.ok a, db')) :
    mo db = (.ok a, db') := by
  rw [transaction] at h
  split at h
  · next heq => rw [heq]; exact h
  · exact absurd h (by simp)

theorem update_medium_ok {m : Medium} {u : User} {gen : Nat → Int}
    {db db' : DB} (h : update_medium m u gen db = (.ok (), db')) :
    upsertAllowed db m u = true ∧
    db'.mediums = (cascadeDelete db m.id).mediums ++
      [⟨m.id, m.name, m.discid, u.username⟩] ∧
    db'.track_sets = (cascadeDelete db m.id).track_sets ++
      tsRowsFor m.id gen 0 0 m.tracks ∧
    db'.tracks = (cascadeDelete db m.id).tracks ++
      allTrackRowsFor gen 0 m.tracks ∧
    (∀ r ∈ tsRowsFor m.id gen 0 0 m.tracks,
      ∀ x ∈ (cascadeDelete db m.id).track_sets, r.id ≠ x.id) ∧
    List.Pairwise (fun a b => a ≠ b) (tsIdList gen 0 m.tracks) ∧
    (∀ ts ∈ m.tracks, ∃ r ∈ db'.recordings, r.id = ts.recording.id) := by
  have hb := transaction_ok_elim h
  rw [update_medium_body] at hb
  split at hb
  · next hA =>
    split at hb
    · exact absurd hb (by simp)
    · next a2 db2 heqM =>
      obtain ⟨hdb2, -⟩ := insertMediumRow_ok heqM
      subst hdb2
      split at hb
      · exact absurd hb (by simp)
      · next k3 db3 heqS =>
        injection hb with h1 h2
        subst h2
        obtain ⟨sm, sts, str, sfresh, spw, spres, -⟩ :=
          insertTrackSets_ok heqS
        simp only at sm sts str sfresh
        exact ⟨hA, sm, sts, str, sfresh, spw, spres⟩
  · exact absurd hb (by simp)

theorem insertTrackSets_recordings_of_present {mid : String} {u : User}
    {gen : Nat → Int} :
    ∀ {sets : List TrackSet} {k i : Nat} {db : DB} {k' : Nat} {db' : DB},
      (∀ ts ∈ sets, ∃ r ∈ db.recordings, r.id = ts.recording.id) →
      insertTrackSets mid u gen k i sets db = (.ok k', db') →
      db'.recordings = db.recordings
  | [], k, i, db, k', db', _, h => by
    rw [insertTrackSets] at h
    injection h with h1 h2
    subst h2
    rfl
  | ts :: rest, k, i, db, k', db', hpres, h => by
    obtain ⟨rec0, hrec0, -⟩ :=
      get_recording_of_present (hpres ts (List.mem_cons_self ts rest))
    simp only [insertTrackSets, hrec0] at h
    split at h
    · exact absurd h (by simp)
    · next a2 db2 heq2 =>
      obtain ⟨hdb2, -⟩ := insertTrackSetRow_ok heq2
      subst hdb2
      split at h
      · exact absurd h (by simp)
      · next k3 db3 heq3 =>
        obtain ⟨-, -, -, hrec3, -⟩ := insertTracks_ok heq3
        simp only at hrec3
        have ihrec := insertTrackSets_recordings_of_present
          (fun ts' hts' => by
            rw [hrec3]
            exact hpres ts' (List.mem_cons_of_mem ts hts')) h
        rw [ihrec, hrec3]

theorem update_medium_recordings_of_present {m : Medium} {u : User}
    {gen : Nat → Int} {db db' : DB}
    (hpres : ∀ ts ∈ m.tracks, ∃ r ∈ db.recordings, r.id = ts.recording.id)
    (h : update_medium m u gen db = (.ok (), db')) :
    db'.recordings = db.recordings := by
  have hb := transaction_ok_elim h
  rw [update_medium_body] at hb
  split at hb
  · split at hb
    · exact absurd hb (by simp)
    · next a2 db2 heqM =>
      obtain ⟨hdb2, -⟩ := insertMediumRow_ok heqM
      have hr2 : db2.recordings = db.recordings := by rw [hdb2]; rfl
      split at hb
      · exact absurd hb (by simp)
      · next k3 db3 heqS =>
        injection hb with h1 h2
        subst h2
        exact (insertTrackSets_recordings_of_present
          (fun ts' h' => by rw [hr2]; exact hpres ts' h') heqS).trans hr2
  · exact absurd hb (by simp)

theorem forall_ne_of_get_recording_none {db : DB} {rid : String}
    (h : get_recording db rid = none) :
    ∀ x ∈ db.recordings, x.id ≠ rid := by
  rw [get_recording] at h
  cases hfl : db.recordings.filter (fun r => r.id == rid) with
  | nil =>
    intro x hx hcontr
    have hxm : x ∈ db.recordings.filter (fun r => r.id == rid) :=
      List.mem_filter.mpr ⟨hx, by simp [hcontr]⟩
    rw [hfl] at hxm
    exact absurd hxm (List.not_mem_nil x)
  | cons r0 rest =>
    rw [hfl] at h
    exact absurd h (by simp)

theorem update_recording_ok_of_absent {rec : Recording} {u : User} {db : DB}
    {a : Unit} {db1 : DB}
    (habs : ∀ x ∈ db.recordings, x.id ≠ rec.id)
    (h : update_recording rec u db = (.ok a, db1)) :
    db1.recordings = db.recordings ++
      [⟨rec.id, rec.work, rec.comment, u.username⟩] := by
  rw [update_recording] at h
  split at h
  · injection h with h1 h2
    subst h2
    show db.recordings.filter (fun r => !(r.id == rec.id)) ++ _ = _
    rw [List.filter_eq_self.mpr (fun x hx => by simp [habs x hx])]
  · exact absurd h (by simp)

theorem insertTrackSets_recordings_spec {mid : String} {u : User}
    {gen : Nat → Int} :
    ∀ {sets : List TrackSet} {k i : Nat} {db : DB} {k' : Nat} {db' : DB},
      insertTrackSets mid u gen k i sets db = (.ok k', db') →
      ∃ newRows : List RecordingRow,
        db'.recordings = db.recordings ++ newRows ∧
        (∀ r ∈ newRows, ∀ x ∈ db.recordings, x.id ≠ r.id) ∧
        (∀ r ∈ newRows, ∃ ts ∈ sets, r.id = ts.recording.id)
  | [], k, i, db, k', db', h => by
    rw [insertTrackSets] at h
    injection h with h1 h2
    subst h2
    exact ⟨[], by simp, fun r hr => absurd hr (List.not_mem_nil r),
      fun r hr => absurd hr (List.not_mem_nil r)⟩
  | ts :: rest, k, i, db, k', db', h => by
    simp only [insertTrackSets] at h
    rcases hrec0 : get_recording db ts.recording.id with _ | rec0 <;>
      simp only [hrec0] at h
    · split at h
      · exact absurd h (by simp)
      · next a db1 heq1 =>
        have habs := forall_ne_of_get_recording_none hrec0
        have hrec1 := update_recording_ok_of_absent habs heq1
        split at h
        · exact absurd h (by simp)
        · next a2 db2 heq2 =>
          obtain ⟨hdb2, -⟩ := insertTrackSetRow_ok heq2
          have hr2 : db2.recordings = db1.recordings := by rw [hdb2]
          split at h
          · exact absurd h (by simp)
          · next k3 db3 heq3 =>
            obtain ⟨-, -, -, hr3, -⟩ := insertTracks_ok heq3
            obtain ⟨newRows, hEq, hfresh, href⟩ :=
              insertTrackSets_recordings_spec h
            refine ⟨⟨ts.recording.id, ts.recording.work,
              ts.recording.comment, u.username⟩ :: newRows, ?_, ?_, ?_⟩
            · rw [hEq, hr3, hr2, hrec1, List.append_assoc,
                List.singleton_append]
            · intro r hr x hx
              rcases List.mem_cons.mp hr with hr | hr
              · subst hr
                exact habs x hx
              · exact hfresh r hr x (by
                  rw [hr3, hr2, hrec1]
                  exact List.mem_append_left _ hx)
            · intro r hr
              rcases List.mem_cons.mp hr with hr | hr
              · subst hr
                exact ⟨ts, List.mem_cons_self ts rest, rfl⟩
              · obtain ⟨ts', hts', hid⟩ := href r hr
                exact ⟨ts', List.mem_cons_of_mem ts hts', hid⟩
    · split at h
      · exact absurd h (by simp)
      · next a2 db2 heq2 =>
        obtain ⟨hdb2, -⟩ := insertTrackSetRow_ok heq2
        have hr2 : db2.recordings = db.recordings := by rw [hdb2]
        split at h
        · exact absurd h (by simp)
        · next k3 db3 heq3 =>
          obtain ⟨-, -, -, hr3, -⟩ := insertTracks_ok heq3
          obtain ⟨newRows, hEq, hfresh, href⟩ :=
            insertTrackSets_recordings_spec h
          refine ⟨newRows, ?_, ?_, ?_⟩
          · rw [hEq, hr3, hr2]
          · intro r hr x hx
            exact hfresh r hr x (by rw [hr3, hr2]; exact hx)
          · intro r hr
            obtain ⟨ts', hts', hid⟩ := href r hr
            exact ⟨ts', List.mem_cons_of_mem ts hts', hid⟩

theorem update_medium_recordings_spec {m : Medium} {u : User}
    {gen : Nat → Int} {db db' : DB}
    (h : update_medium m u gen db = (.ok (), db')) :
    ∃ newRows : List RecordingRow,
      db'.recordings = db.recordings ++ newRows ∧
      (∀ r ∈ newRows, ∀ x ∈ db.recordings, x.id ≠ r.id) ∧
      (∀ r ∈ newRows, ∃ ts ∈ m.tracks, r.id = ts.recording.id) := by
  have hb := transaction_ok_elim h
  rw [update_medium_body] at hb
  split at hb
  · split at hb
    · exact absurd hb (by simp)
    · next a2 db2 heqM =>
      obtain ⟨hdb2, -⟩ := insertMediumRow_ok heqM
      have hr2 : db2.recordings = db.recordings := by rw [hdb2]; rfl
      split at hb
      · exact absurd hb (by simp)
      · next k3 db3 heqS =>
        injection hb with h1 h2
        subst h2
        obtain ⟨newRows, hEq, hfresh, href⟩ :=
          insertTrackSets_recordings_spec heqS
        exact ⟨newRows, by rw [hEq, hr2],
          fun r hr x hx => hfresh r hr x (by rw [hr2]; exact hx), href⟩
  · exact absurd hb (by simp)

theorem insertMediumRow_error {r : MediumRow} {db : DB} {e : DbError}
    {db' : DB} (h : insertMediumRow r db = (.error e, db')) :
    e = .uniqueViolation ∧ db' = db := by
  rw [insertMediumRow] at h
  split at h
  · injection h with h1 h2
    injection h1 with h3
    exact ⟨h3.symm, h2.symm⟩
  · exact absurd h (by simp)

theorem insertTrackRow_error {r : TrackRow} {db : DB} {e : DbError} {db' : DB}
    (h : insertTrackRow r db = (.error e, db')) :
    e = .uniqueViolation ∧ db' = db := by
  rw [insertTrackRow] at h
  split at h
  · injection h with h1 h2
    injection h1 with h3
    exact ⟨h3.symm, h2.symm⟩
  · exact absurd h (by simp)

theorem insertTrackSetRow_error {r : TrackSetRow} {db : DB} {e : DbError}
    {db' : DB} (h : insertTrackSetRow r db = (.error e, db')) :
    e = .uniqueViolation ∧ db' = db := by
  rw [insertTrackSetRow] at h
  split at h
  · injection h with h1 h2
    injection h1 with h3
    exact ⟨h3.symm, h2.symm⟩
  · exact absurd h (by simp)

theorem update_recording_error {rec : Recording} {u : User} {db : DB}
    {e : DbError} {db' : DB} (h : update_recording rec u db = (.error e, db')) :
    e = .referential rec.id ∧ db' = db := by
  rw [update_recording] at h
  split at h
  · exact absurd h (by simp)
  · injection h with h1 h2
    injection h1 with h3
    exact ⟨h3.symm, h2.symm⟩

theorem insertTracks_error {tsId : Int} {gen : Nat → Int} :
    ∀ {trs : List Track} {k i : Nat} {db : DB} {e : DbError} {db' : DB},
      insertTracks tsId gen k i trs db = (.error e, db') →
      e = .uniqueViolation
  | [], k, i, db, e, db', h => by
    rw [insertTracks] at h
    exact absurd h (by simp)
  | t :: rest, k, i, db, e, db', h => by
    simp only [insertTracks] at h
    split at h
    · next e1 db1 heq =>
      injection h with h1 h2
      injection h1 with h3
      exact h3 ▸ (insertTrackRow_error heq).1
    · exact insertTracks_error h

theorem insertTrackSets_error_ne_forbidden {mid : String} {u : User}
    {gen : Nat → Int} :
    ∀ {sets : List TrackSet} {k i : Nat} {db : DB} {e : DbError} {db' : DB},
      insertTrackSets mid u gen k i sets db = (.error e, db') →
      e ≠ .forbidden
  | [], k, i, db, e, db', h => by
    rw [insertTrackSets] at h
    exact absurd h (by simp)
  | ts :: rest, k, i, db, e, db', h => by
    simp only [insertTrackSets] at h
    rcases hrec0 : get_recording db ts.recording.id with _ | rec0 <;>
      simp only [hrec0] at h
    · split at h
      · next e1 db1 heq =>
        injection h with h1 h2
        injection h1 with h3
        rw [← h3, (update_recording_error heq).1]
        simp
      · next a db1 heq =>
        split at h
        · next e2 db2 heq2 =>
          injection h with h1 h2
          injection h1 with h3
          rw [← h3, (insertTrackSetRow_error heq2).1]
          simp
        · next a2 db2 heq2 =>
          split at h
          · next e3 db3 heq3 =>
            injection h with h1 h2
            injection h1 with h3
            rw [← h3, insertTracks_error heq3]
            simp
          · next k3 db3 heq3 => exact insertTrackSets_error_ne_forbidden h
    · split at h
      · next e2 db2 heq2 =>
        injection h with h1 h2
        injection h1 with h3
        rw [← h3, (insertTrackSetRow_error heq2).1]
        simp
      · next a2 db2 heq2 =>
        split at h
        · next e3 db3 heq3 =>
          injection h with h1 h2
          injection h1 with h3
          rw [← h3, insertTracks_error heq3]
          simp
        · next k3 db3 heq3 => exact insertTrackSets_error_ne_forbidden h

theorem transaction_error_elim {α : Type} {mo : DbM α} {db : DB} {e : DbError}
    {db' : DB} (h : transaction mo db = (.error e, db')) :
    db' = db ∧ ∃ db1, mo db = (.error e, db1) := by
  rw [transaction] at h
  split at h
  · exact absurd h (by simp)
  · next a b heq =>
    injection h with h1 h2
    injection h1 with h3
    exact ⟨h2.symm, b, h3 ▸ heq⟩

theorem update_medium_body_forbidden {m : Medium} {u : User} {gen : Nat → Int}
    {db db1 : DB}
    (h : update_medium_body m u gen db = (.error .forbidden, db1)) :
    upsertAllowed db m u = false := by
  rw [update_medium_body] at h
  split at h
  · exfalso
    split at h
    · next e2 db2 heq2 =>
      injection h with h1 h2
      injection h1 with h3
      exact absurd ((insertMediumRow_error heq2).1.symm.trans h3) (by simp)
    · next a2 db2 heq2 =>
      split at h
      · next e3 db3 heq3 =>
        injection h with h1 h2
        injection h1 with h3
        exact insertTrackSets_error_ne_forbidden heq3 h3
      · exact absurd h (by simp)
  · next hA =>
    cases hB : upsertAllowed db m u
    · rfl
    · exact absurd hB hA

theorem update_medium_not_allowed {m : Medium} {u : User} {gen : Nat → Int}
    {db : DB} (hA : upsertAllowed db m u = false) :
    update_medium m u gen db = (.error .forbidden, db) := by
  have hbody : update_medium_body m u gen db = (.error .forbidden, db) := by
    rw [update_medium_body, hA]
    simp
  show transaction (update_medium_body m u gen) db = _
  simp only [transaction, hbody]

theorem update_medium_forbidden_iff {m : Medium} {u : User} {gen : Nat → Int}
    {db : DB} :
    (update_medium m u gen db).1 = .error .forbidden ↔
      upsertAllowed db m u = false := by
  constructor
  · intro hf
    have hp : update_medium m u gen db =
        (.error .forbidden, (update_medium m u gen db).2) := by
      rw [← hf]
    obtain ⟨-, db1, hbody⟩ := transaction_error_elim hp
    exact update_medium_body_forbidden hbody
  · intro hA
    rw [update_medium_not_allowed hA]

/-! ## Reading back a freshly upserted aggregate -/

theorem filter_of_filter_sub {α : Type} {p q : α → Bool} (l : List α)
    (himp : ∀ a, p a = true → q a = true) :
    l.filter p = (l.filter q).filter p := by
  rw [List.filter_filter]
  exact (List.filter_congr (fun a _ => by
    cases hp : p a
    · simp
    · simp [himp a hp])).symm

theorem cascadeDelete_tracks_ref {db : DB} {id : String} (hwf : TracksWF db) :
    TracksWF (cascadeDelete db id) := by
  intro t ht
  obtain ⟨htmem, hpred⟩ := List.mem_filter.mp ht
  obtain ⟨r, hr, hrid⟩ := hwf t htmem
  refine ⟨r, List.mem_filter.mpr ⟨hr, ?_⟩, hrid⟩
  simp only [Bool.not_eq_eq_eq_not, Bool.not_true, beq_eq_false_iff_ne, ne_eq]
  intro hmed
  have hmem2 : r.id ∈ (db.track_sets.filter
      (fun ts => ts.medium == id)).map (fun ts => ts.id) :=
    List.mem_map.mpr ⟨r, List.mem_filter.mpr ⟨hr, by simp [hmed]⟩, rfl⟩
  have hcont : ((db.track_sets.filter (fun ts => ts.medium == id)).map
      (fun ts => ts.id)).contains t.track_set = true := by
    rw [← hrid]
    exact List.elem_iff.mpr hmem2
  rw [hcont] at hpred
  simp at hpred

theorem findMediumRow_post {db db' : DB} {m : Medium} {u : User}
    (hmed : db'.mediums = (cascadeDelete db m.id).mediums ++
      [⟨m.id, m.name, m.discid, u.username⟩]) :
    findMediumRow db' m.id =
      some ⟨m.id, m.name, m.discid, u.username⟩ := by
  rw [findMediumRow, hmed, List.filter_append]
  have hfront : (cascadeDelete db m.id).mediums.filter
      (fun r => r.id == m.id) = [] := by
    rw [List.filter_eq_nil_iff]
    intro r hr
    have := (List.mem_filter.mp hr).2
    simp only [Bool.not_eq_eq_eq_not, Bool.not_true] at this
    simp [this]
  rw [hfront, List.nil_append]
  simp

theorem sortedTsRows_post {db db' : DB} {m : Medium} {gen : Nat → Int}
    (hlen : m.tracks.length ≤ 2 ^ 31)
    (hts : db'.track_sets = (cascadeDelete db m.id).track_sets ++
      tsRowsFor m.id gen 0 0 m.tracks) :
    sortedTsRows db' m.id = tsRowsFor m.id gen 0 0 m.tracks := by
  rw [sortedTsRows, hts, List.filter_append]
  have hfront : (cascadeDelete db m.id).track_sets.filter
      (fun ts => ts.medium == m.id) = [] := by
    rw [List.filter_eq_nil_iff]
    intro r hr
    have := (List.mem_filter.mp hr).2
    simp only [Bool.not_eq_eq_eq_not, Bool.not_true] at this
    simp [this]
  have hback : (tsRowsFor m.id gen 0 0 m.tracks).filter
      (fun ts => ts.medium == m.id) = tsRowsFor m.id gen 0 0 m.tracks := by
    rw [List.filter_eq_self]
    intro r hr
    simp [(mem_tsRowsFor hr).1]
  rw [hfront, hback, List.nil_append]
  exact List.Sorted.insertionSort_eq (sorted_tsRowsFor (by simpa using hlen))

theorem mapTrackSets_post {db' : DB} {mid : String} {gen : Nat → Int} :
    ∀ {sets : List TrackSet} {k i : Nat},
      db'.tracks.filter
        (fun t => (tsIdList gen k sets).contains t.track_set) =
        allTrackRowsFor gen k sets →
      List.Pairwise (fun a b => a ≠ b) (tsIdList gen k sets) →
      (∀ ts ∈ sets, ∃ r ∈ db'.recordings, r.id = ts.recording.id) →
      (∀ ts ∈ sets, ts.tracks.length ≤ 2 ^ 31 ∧
        ∀ t ∈ ts.tracks, t.work_parts ≠ [] ∧ ∀ p ∈ t.work_parts, p < 2 ^ 64) →
      ∃ tss, mapTrackSets db' (tsRowsFor mid gen k i sets) = .ok tss ∧
        tss.map tsShape = sets.map tsShape
  | [], k, i, _, _, _, _ => ⟨[], rfl, rfl⟩
  | ts :: rest, k, i, hfil, hpw, hpres, hwf => by
    have hmemk : (gen k) ∈ tsIdList gen k (ts :: rest) :=
      show (gen k) ∈ gen k :: tsIdList gen (k + 1 + ts.tracks.length) rest from
        List.mem_cons_self _ _
    have hsplit : allTrackRowsFor gen k (ts :: rest) =
        trackRowsFor (gen k) gen (k + 1) 0 ts.tracks ++
          allTrackRowsFor gen (k + 1 + ts.tracks.length) rest := rfl
    obtain ⟨hheadne, hpwtail⟩ := List.pairwise_cons.mp
      (show List.Pairwise (fun a b => a ≠ b)
        (gen k :: tsIdList gen (k + 1 + ts.tracks.length) rest) from hpw)
    -- the track rows of the head track set
    have hfilk : db'.tracks.filter (fun t => t.track_set == gen k) =
        trackRowsFor (gen k) gen (k + 1) 0 ts.tracks := by
      rw [@filter_of_filter_sub TrackRow (fun t => t.track_set == gen k)
          (fun t => (tsIdList gen k (ts :: rest)).contains t.track_set)
          db'.tracks
          (fun a ha => List.elem_iff.mpr (by
            rw [beq_iff_eq] at ha
            rw [ha]
            exact hmemk)),
        hfil, hsplit, List.filter_append]
      have h1 : (trackRowsFor (gen k) gen (k + 1) 0 ts.tracks).filter
          (fun t => t.track_set == gen k) =
          trackRowsFor (gen k) gen (k + 1) 0 ts.tracks := by
        rw [List.filter_eq_self]
        intro r hr
        simp [(mem_trackRowsFor hr).1]
      have h2 : (allTrackRowsFor gen (k + 1 + ts.tracks.length) rest).filter
          (fun t => t.track_set == gen k) = [] := by
        rw [List.filter_eq_nil_iff]
        intro r hr
        have hmem := track_set_mem_allTrackRowsFor hr
        have := hheadne _ hmem
        simp [this.symm]
      rw [h1, h2, List.append_nil]
    -- the filter hypothesis for the tail
    have hfiltail : db'.tracks.filter
        (fun t => (tsIdList gen (k + 1 + ts.tracks.length) rest).contains
          t.track_set) = allTrackRowsFor gen (k + 1 + ts.tracks.length) rest := by
      rw [@filter_of_filter_sub TrackRow
          (fun t => (tsIdList gen (k + 1 + ts.tracks.length) rest).contains
            t.track_set)
          (fun t => (tsIdList gen k (ts :: rest)).contains t.track_set)
          db'.tracks
          (fun a ha => List.elem_iff.mpr
            (show a.track_set ∈
              gen k :: tsIdList gen (k + 1 + ts.tracks.length) rest from
              List.mem_cons_of_mem _ (List.elem_iff.mp ha))),
        hfil, hsplit, List.filter_append]
      have h1 : (trackRowsFor (gen k) gen (k + 1) 0 ts.tracks).filter
          (fun t => (tsIdList gen (k + 1 + ts.tracks.length) rest).contains
            t.track_set) = [] := by
        rw [List.filter_eq_nil_iff]
        intro r hr
        rw [(mem_trackRowsFor hr).1]
        intro hcontr
        exact hheadne _ (List.elem_iff.mp hcontr) rfl
      have h2 : (allTrackRowsFor gen (k + 1 + ts.tracks.length) rest).filter
          (fun t => (tsIdList gen (k + 1 + ts.tracks.length) rest).contains
            t.track_set) =
          allTrackRowsFor gen (k + 1 + ts.tracks.length) rest := by
        rw [List.filter_eq_self]
        intro r hr
        rw [List.elem_iff]
        exact track_set_mem_allTrackRowsFor hr
      rw [h1, h2, List.nil_append]
    obtain ⟨rec, hrec, hrecid⟩ :=
      get_recording_of_present (hpres ts (List.mem_cons_self ts rest))
    obtain ⟨tss, htss, hshape⟩ := mapTrackSets_post hfiltail hpwtail
      (fun ts' h' => hpres ts' (List.mem_cons_of_mem ts h'))
      (fun ts' h' => hwf ts' (List.mem_cons_of_mem ts h'))
    have hget : get_track_set_from_row db'
        (⟨gen k, mid, i32ofNat i, ts.recording.id⟩ : TrackSetRow) =
        .ok ⟨rec, ts.tracks⟩ := by
      rw [get_track_set_from_row]
      simp only [hrec]
      have hsorted : sortedTrackRows db' (gen k) =
        trackRowsFor (gen k) gen (k + 1) 0 ts.tracks := by
        rw [sortedTrackRows, hfilk]
        exact List.Sorted.insertionSort_eq (sorted_trackRowsFor
          (by simpa using (hwf ts (List.mem_cons_self ts rest)).1))
      rw [hsorted, decodeTracks_trackRowsFor
        (hwf ts (List.mem_cons_self ts rest)).2]
    refine ⟨⟨rec, ts.tracks⟩ :: tss, ?_, ?_⟩
    · rw [tsRowsFor, mapTrackSets, hget, htss]
    · rw [List.map_cons, List.map_cons, hshape]
      simp [tsShape, hrecid]

theorem get_medium_post {m : Medium} {u : User} {gen : Nat → Int} {db db' : DB}
    (hwf : TracksWF db)
    (hlen : m.tracks.length ≤ 2 ^ 31)
    (hbounds : ∀ ts ∈ m.tracks, ts.tracks.length ≤ 2 ^ 31 ∧
      ∀ t ∈ ts.tracks, t.work_parts ≠ [] ∧ ∀ p ∈ t.work_parts, p < 2 ^ 64)
    (h : update_medium m u gen db = (.ok (), db')) :
    ∃ mm, get_medium db' m.id = .ok (some mm) ∧
      mm.id = m.id ∧ mm.name = m.name ∧ mm.discid = m.discid ∧
      mm.tracks.map tsShape = m.tracks.map tsShape := by
  obtain ⟨hA, hmed, hts, htr, hfresh, hpw, hpres⟩ := update_medium_ok h
  have hfil : db'.tracks.filter
      (fun t => (tsIdList gen 0 m.tracks).contains t.track_set) =
      allTrackRowsFor gen 0 m.tracks := by
    rw [htr, List.filter_append]
    have h1 : (cascadeDelete db m.id).tracks.filter
        (fun t => (tsIdList gen 0 m.tracks).contains t.track_set) = [] := by
      rw [List.filter_eq_nil_iff]
      intro t ht hcontr
      obtain ⟨r, hr, hrid⟩ := cascadeDelete_tracks_ref hwf t ht
      have hmem : t.track_set ∈ tsIdList gen 0 m.tracks :=
        List.elem_iff.mp hcontr
      have hmap : (tsRowsFor m.id gen 0 0 m.tracks).map (fun r => r.id) =
          tsIdList gen 0 m.tracks := map_id_tsRowsFor
      rw [← hmap] at hmem
      obtain ⟨row, hrow, hrowid⟩ := List.mem_map.mp hmem
      exact hfresh row hrow r hr (by rw [hrowid, ← hrid])
    have h2 : (allTrackRowsFor gen 0 m.tracks).filter
        (fun t => (tsIdList gen 0 m.tracks).contains t.track_set) =
        allTrackRowsFor gen 0 m.tracks := by
      rw [List.filter_eq_self]
      intro r hr
      exact List.elem_iff.mpr (track_set_mem_allTrackRowsFor hr)
    rw [h1, h2, List.nil_append]
  obtain ⟨tss, htss, hshape⟩ :=
    @mapTrackSets_post db' m.id gen m.tracks 0 0 hfil hpw hpres hbounds
  refine ⟨⟨m.id, m.name, m.discid, tss⟩, ?_, rfl, rfl, rfl, hshape⟩
  have hrowid : (⟨m.id, m.name, m.discid, u.username⟩ : MediumRow).id = m.id :=
    rfl
  simp only [get_medium, findMediumRow_post hmed, get_medium_data, hrowid,
    sortedTsRows_post hlen hts, htss]

/-! ## Reads that hit malformed or missing data -/

theorem decodeTracks_ok_all {l : List TrackRow} {out : List Track}
    (h : decodeTracks l = some out) :
    ∀ r ∈ l, decodeWorkParts r.work_parts ≠ none := by
  induction l generalizing out with
  | nil => intro r hr; exact absurd hr (List.not_mem_nil r)
  | cons r0 rs ih =>
    rw [decodeTracks] at h
    intro r hr
    rcases List.mem_cons.mp hr with hr | hr
    · subst hr
      intro hd
      rw [hd] at h
      exact absurd h (by simp)
    · cases hd0 : decodeWorkParts r0.work_parts with
      | none => rw [hd0] at h; exact absurd h (by simp)
      | some l0 =>
        rw [hd0] at h
        cases hds : decodeTracks rs with
        | none => rw [hds] at h; exact absurd h (by simp)
        | some ts0 => exact ih hds r hr

theorem get_track_set_from_row_ok_elim {db : DB} {r : TrackSetRow}
    {ts : TrackSet} (h : get_track_set_from_row db r = .ok ts) :
    ∃ rec trs, get_recording db r.recording = some rec ∧
      decodeTracks (sortedTrackRows db r.id) = some trs ∧ ts = ⟨rec, trs⟩ := by
  rw [get_track_set_from_row] at h
  cases hrec : get_recording db r.recording with
  | none => rw [hrec] at h; exact absurd h (by simp)
  | some rec =>
    rw [hrec] at h
    cases hdt : decodeTracks (sortedTrackRows db r.id) with
    | none => rw [hdt] at h; exact absurd h (by simp)
    | some trs =>
      rw [hdt] at h
      injection h with h1
      exact ⟨rec, trs, rfl, rfl, h1.symm⟩

theorem get_track_set_from_row_error_elim {db : DB} {r : TrackSetRow}
    {e : DbError} (h : get_track_set_from_row db r = .error e)
    (hpres : ∃ x ∈ db.recordings, x.id = r.recording) :
    e = .decodeError := by
  rw [get_track_set_from_row] at h
  obtain ⟨rec, hrec, -⟩ := get_recording_of_present hpres
  rw [hrec] at h
  cases hdt : decodeTracks (sortedTrackRows db r.id) with
  | none =>
    rw [hdt] at h
    injection h with h1
    exact h1.symm
  | some trs => rw [hdt] at h; exact absurd h (by simp)

theorem mapTrackSets_ok_all {db : DB} {rows : List TrackSetRow}
    {tss : List TrackSet} (h : mapTrackSets db rows = .ok tss) :
    ∀ r ∈ rows, ∃ ts, get_track_set_from_row db r = .ok ts := by
  induction rows generalizing tss with
  | nil => intro r hr; exact absurd hr (List.not_mem_nil r)
  | cons r0 rs ih =>
    rw [mapTrackSets] at h
    intro r hr
    cases hg : get_track_set_from_row db r0 with
    | error e => rw [hg] at h; exact absurd h (by simp)
    | ok ts0 =>
      rw [hg] at h
      rcases List.mem_cons.mp hr with hr | hr
      · exact hr ▸ ⟨ts0, hg⟩
      · cases hms : mapTrackSets db rs with
        | error e => rw [hms] at h; exact absurd h (by simp)
        | ok tss0 => exact ih hms r hr

theorem mapTrackSets_error_elim {db : DB} {rows : List TrackSetRow}
    {e : DbError} (h : mapTrackSets db rows = .error e) :
    ∃ r ∈ rows, get_track_set_from_row db r = .error e := by
  induction rows with
  | nil => rw [mapTrackSets] at h; exact absurd h (by simp)
  | cons r0 rs ih =>
    rw [mapTrackSets] at h
    cases hg : get_track_set_from_row db r0 with
    | error e0 =>
      rw [hg] at h
      injection h with h1
      exact ⟨r0, List.mem_cons_self r0 rs, h1 ▸ hg⟩
    | ok ts0 =>
      rw [hg] at h
      cases hms : mapTrackSets db rs with
      | error e0 =>
        rw [hms] at h
        injection h with h1
        obtain ⟨r, hr, hge⟩ := ih (h1 ▸ hms)
        exact ⟨r, List.mem_cons_of_mem r0 hr, hge⟩
      | ok tss0 => rw [hms] at h; exact absurd h (by simp)

theorem mem_sortedTsRows {db : DB} {mid : String} {r : TrackSetRow} :
    r ∈ sortedTsRows db mid ↔ r ∈ db.track_sets ∧ r.medium = mid := by
  rw [sortedTsRows, List.mem_insertionSort, List.mem_filter]
  simp

theorem mem_sortedTrackRows {db : DB} {tsId : Int} {r : TrackRow} :
    r ∈ sortedTrackRows db tsId ↔ r ∈ db.tracks ∧ r.track_set = tsId := by
  rw [sortedTrackRows, List.mem_insertionSort, List.mem_filter]
  simp

theorem get_medium_decode_error {db : DB} {mid : String} {row : MediumRow}
    (hfind : findMediumRow db mid = some row)
    (hmal : ∃ tr ∈ db.tracks, ∃ tsr ∈ db.track_sets,
      tsr.id = tr.track_set ∧ tsr.medium = row.id ∧
      decodeWorkParts tr.work_parts = none)
    (hrecs : ∀ tsr ∈ db.track_sets, tsr.medium = row.id →
      ∃ r ∈ db.recordings, r.id = tsr.recording) :
    get_medium db mid = .error .decodeError := by
  obtain ⟨tr, htr, tsr, htsr, hid, hmed, hdec⟩ := hmal
  have hdata : get_medium_data db row = .error .decodeError := by
    rw [get_medium_data]
    cases hms : mapTrackSets db (sortedTsRows db row.id) with
    | ok tss =>
      exfalso
      obtain ⟨ts, hts⟩ := mapTrackSets_ok_all hms tsr
        (mem_sortedTsRows.mpr ⟨htsr, hmed⟩)
      obtain ⟨rec, trs, -, hdt, -⟩ := get_track_set_from_row_ok_elim hts
      exact decodeTracks_ok_all hdt tr
        (mem_sortedTrackRows.mpr ⟨htr, hid.symm⟩) hdec
    | error e =>
      obtain ⟨r, hr, hge⟩ := mapTrackSets_error_elim hms
      obtain ⟨hrmem, hrmed⟩ := mem_sortedTsRows.mp hr
      rw [get_track_set_from_row_error_elim hge (hrecs r hrmem hrmed)]
  simp only [get_medium, hfind, hdata]

/-! ## Shape of the list queries -/

theorem get_medium_data_ok_proj {db : DB} {row : MediumRow} {mm : Medium}
    (h : get_medium_data db row = .ok mm) :
    mm.id = row.id ∧ mm.name = row.name ∧ mm.discid = row.discid := by
  rw [get_medium_data] at h
  cases hms : mapTrackSets db (sortedTsRows db row.id) with
  | error e => rw [hms] at h; exact absurd h (by simp)
  | ok tss =>
    rw [hms] at h
    injection h with h1
    rw [← h1]
    exact ⟨rfl, rfl, rfl⟩

theorem mapMediumRows_ok_shape {db : DB} {rows : List MediumRow}
    {ms : List Medium} (h : mapMediumRows db rows = .ok ms) :
    ms.map (fun m => m.id) = rows.map (fun r => r.id) ∧
    ms.map (fun m => m.discid) = rows.map (fun r => r.discid) ∧
    ∀ mm ∈ ms, ∃ row ∈ rows, get_medium_data db row = .ok mm := by
  induction rows generalizing ms with
  | nil =>
    rw [mapMediumRows] at h
    injection h with h1
    subst h1
    exact ⟨rfl, rfl, fun mm hmm => absurd hmm (List.not_mem_nil mm)⟩
  | cons r0 rs ih =>
    rw [mapMediumRows] at h
    cases hg : get_medium_data db r0 with
    | error e => rw [hg] at h; exact absurd h (by simp)
    | ok m0 =>
      rw [hg] at h
      cases hms : mapMediumRows db rs with
      | error e => rw [hms] at h; exact absurd h (by simp)
      | ok ms0 =>
        rw [hms] at h
        injection h with h1
        subst h1
        obtain ⟨hid, hdisc, hmem⟩ := ih hms
        obtain ⟨hpid, -, hpdisc⟩ := get_medium_data_ok_proj hg
        refine ⟨?_, ?_, ?_⟩
        · rw [List.map_cons, List.map_cons, hid, hpid]
        · rw [List.map_cons, List.map_cons, hdisc, hpdisc]
        · intro mm hmm
          rcases List.mem_cons.mp hmm with hmm | hmm
          · exact ⟨r0, List.mem_cons_self r0 rs, hmm ▸ hg⟩
          · obtain ⟨row, hrow, hrowg⟩ := hmem mm hmm
            exact ⟨row, List.mem_cons_of_mem r0 hrow, hrowg⟩

theorem parseSegments_none {l : List (List Char)}
    (h : ∃ s ∈ l, parseSegment s = none) : parseSegments l = none := by
  induction l with
  | nil =>
    obtain ⟨s, hs, -⟩ := h
    exact absurd hs (List.not_mem_nil s)
  | cons s0 rest ih =>
    obtain ⟨s, hs, hps⟩ := h
    rw [parseSegments]
    rcases List.mem_cons.mp hs with hs | hs
    · rw [← hs, hps]
    · rw [ih ⟨s, hs, hps⟩]
      cases parseSegment s0 <;> rfl

theorem decodeWorkParts_none_of_segment {s : String}
    (h : ∃ seg ∈ splitCommaChars s.data, parseSegment seg = none) :
    decodeWorkParts s = none := by
  rw [decodeWorkParts]
  exact parseSegments_none h

theorem filter_id_singleton {x : String} :
    ∀ {l : List MediumRow}, (l.map (fun r => r.id)).Nodup →
      (∃ r ∈ l, r.id = x) →
      ∃ r, l.filter (fun r => r.id == x) = [r] ∧ r.id = x
  | [], _, hex => by
    obtain ⟨r, hr, -⟩ := hex
    exact absurd hr (List.not_mem_nil r)
  | r0 :: rest, hnd, hex => by
    rw [List.map_cons, List.nodup_cons] at hnd
    by_cases h0 : r0.id = x
    · refine ⟨r0, ?_, h0⟩
      rw [List.filter_cons_of_pos (by simp [h0]),
        List.filter_eq_nil_iff.mpr (fun r hr => by
          intro hcontr
          rw [beq_iff_eq] at hcontr
          exact hnd.1 (List.mem_map.mpr ⟨r, hr, by rw [hcontr, ← h0]⟩))]
    · rw [List.filter_cons_of_neg (by simp [h0])]
      obtain ⟨r, hr, hid⟩ := hex
      rcases List.mem_cons.mp hr with hr | hr
      · exact absurd (hr ▸ hid) h0
      · exact filter_id_singleton hnd.2 ⟨r, hr, hid⟩

theorem joinRows_map {db : DB}
    (hnd : (db.mediums.map (fun r => r.id)).Nodup) :
    ∀ {L : List TrackSetRow},
      (∀ ts ∈ L, ∃ r ∈ db.mediums, r.id = ts.medium) →
      (L.flatMap (fun ts => db.mediums.filter
        (fun r => r.id == ts.medium))).map (fun r => r.id) =
        L.map (fun ts => ts.medium)
  | [], _ => rfl
  | ts0 :: rest, hex => by
    obtain ⟨r, hfil, hid⟩ :=
      filter_id_singleton hnd (hex ts0 (List.mem_cons_self ts0 rest))
    rw [List.flatMap_cons, List.map_append, hfil,
      joinRows_map hnd (fun ts hts => hex ts (List.mem_cons_of_mem ts0 hts)),
      List.map_singleton, hid, List.singleton_append, List.map_cons]

theorem mem_joinRows_mediums {db : DB} {rid : String} {r : MediumRow}
    (h : r ∈ joinRowsForRecording db rid) : r ∈ db.mediums := by
  rw [joinRowsForRecording] at h
  obtain ⟨ts, -, hr⟩ := List.mem_flatMap.mp h
  exact (List.mem_filter.mp hr).1

theorem exists_trackRowsFor_of_mem {tsId : Int} {gen : Nat → Int} :
    ∀ {trs : List Track} {k i : Nat} {t : Track}, t ∈ trs →
      ∃ r ∈ trackRowsFor tsId gen k i trs, r.track_set = tsId ∧
        r.work_parts = encodeWorkParts t.work_parts
  | t0 :: rest, k, i, t, ht => by
    rcases List.mem_cons.mp ht with ht | ht
    · exact ⟨⟨gen k, tsId, i32ofNat i, encodeWorkParts t0.work_parts⟩,
        List.mem_cons_self _ _, rfl, by rw [ht]⟩
    · obtain ⟨r, hr, hts, hwp⟩ := exists_trackRowsFor_of_mem ht
      exact ⟨r, List.mem_cons_of_mem _ hr, hts, hwp⟩

theorem exists_aggRows_of_mem {mid : String} {gen : Nat → Int} :
    ∀ {sets : List TrackSet} {k i : Nat} {ts : TrackSet} {t : Track},
      ts ∈ sets → t ∈ ts.tracks →
      ∃ tsr ∈ tsRowsFor mid gen k i sets, ∃ tr ∈ allTrackRowsFor gen k sets,
        tsr.id = tr.track_set ∧ tsr.medium = mid ∧
        tr.work_parts = encodeWorkParts t.work_parts
  | ts0 :: rest, k, i, ts, t, hts, ht => by
    rcases List.mem_cons.mp hts with hts | hts
    · subst hts
      obtain ⟨tr, htr, htrts, htrwp⟩ :=
        @exists_trackRowsFor_of_mem (gen k) gen ts.tracks (k + 1) 0 t ht
      refine ⟨⟨gen k, mid, i32ofNat i, ts.recording.id⟩,
        List.mem_cons_self _ _, tr, ?_, htrts.symm, rfl, htrwp⟩
      rw [allTrackRowsFor]
      exact List.mem_append_left _ htr
    · obtain ⟨tsr, htsr, tr, htr, h1, h2, h3⟩ :=
        exists_aggRows_of_mem hts ht
      refine ⟨tsr, List.mem_cons_of_mem _ htsr, tr, ?_, h1, h2, h3⟩
      rw [allTrackRowsFor]
      exact List.mem_append_right _ htr

theorem mem_tsRowsFor_recording {mid : String} {gen : Nat → Int} :
    ∀ {sets : List TrackSet} {k i : Nat} {r : TrackSetRow},
      r ∈ tsRowsFor mid gen k i sets →
      ∃ ts ∈ sets, r.recording = ts.recording.id
  | ts0 :: rest, k, i, r, hr => by
    rcases List.mem_cons.mp hr with hr | hr
    · exact ⟨ts0, List.mem_cons_self ts0 rest, by rw [hr]⟩
    · obtain ⟨ts, hts, hrec⟩ := mem_tsRowsFor_recording hr
      exact ⟨ts, List.mem_cons_of_mem ts0 hts, hrec⟩

theorem cascadeDelete_eq_self {db : DB} {id : String}
    (hnomed : ∀ r ∈ db.mediums, r.id ≠ id)
    (hwts : ∀ ts ∈ db.track_sets, ∃ r ∈ db.mediums, r.id = ts.medium) :
    cascadeDelete db id = db := by
  have hnots : ∀ ts ∈ db.track_sets, ts.medium ≠ id := by
    intro ts hts hcontr
    obtain ⟨r, hr, hid⟩ := hwts ts hts
    exact hnomed r hr (hid.trans hcontr)
  have h1 : db.mediums.filter (fun r => !(r.id == id)) = db.mediums :=
    List.filter_eq_self.mpr (fun r hr => by simp [hnomed r hr])
  have h2 : db.track_sets.filter (fun ts => !(ts.medium == id)) =
      db.track_sets :=
    List.filter_eq_self.mpr (fun ts hts => by simp [hnots ts hts])
  have h3 : db.track_sets.filter (fun ts => ts.medium == id) = [] :=
    List.filter_eq_nil_iff.mpr (fun ts hts => by simp [hnots ts hts])
  rw [cascadeDelete, h1, h2, h3]
  have h4 : db.tracks.filter (fun t =>
      !((([] : List TrackSetRow).map (fun ts => ts.id)).contains
        t.track_set)) = db.tracks :=
    List.filter_eq_self.mpr (fun t _ => by simp)
  rw [h4]

theorem delete_medium_ok_state {db : DB} {id : String} {u : User}
    (hd : u.may_delete = true) :
    delete_medium id u db = (.ok (), cascadeDelete db id) := by
  rw [delete_medium, hd]
  simp

theorem findMediumRow_cascadeDelete {db : DB} {id : String} :
    findMediumRow (cascadeDelete db id) id = none := by
  rw [findMediumRow]
  have h1 : (cascadeDelete db id).mediums.filter (fun r => r.id == id) = [] := by
    rw [List.filter_eq_nil_iff]
    intro r hr
    have := (List.mem_filter.mp hr).2
    simp only [Bool.not_eq_eq_eq_not, Bool.not_true] at this
    simp [this]
  rw [h1]
  rfl

/-! ## The claims -/

/-- C1 (as stated, refuted): the round trip does not hold for every
well-formed Medium with non-negative-integer work-part lists.  A medium
whose single track has the empty work-part list is accepted by
`update_medium` (the empty list is stored as the empty string), but
`get_medium` on the same id then fails with a decode error instead of
returning the medium. -/
theorem C1_counterexample :
    (update_medium ⟨"m1", "Disc 1", none, [⟨⟨"r1", "w1", ""⟩, [⟨[]⟩]⟩]⟩
        ⟨"alice", true, fun _ => true, true⟩ (fun k => (k : Int))
        ⟨[], [], [], []⟩).1 = .ok () ∧
    get_medium (update_medium ⟨"m1", "Disc 1", none,
        [⟨⟨"r1", "w1", ""⟩, [⟨[]⟩]⟩]⟩
        ⟨"alice", true, fun _ => true, true⟩ (fun k => (k : Int))
        ⟨[], [], [], []⟩).2 "m1" = .error .decodeError := by
  constructor
  · decide
  · decide

/-- C1 (amended): for every store whose track rows reference existing
track-set rows, and every medium whose track-set count and per-set track
counts fit in `i32` and whose tracks carry NONEMPTY lists of work-part
indices below `2 ^ 64` (the `usize` range), a successful `update_medium`
followed by `get_medium` on the same id returns a medium with the same
name, the same disc id, and the same track-sets and tracks in the same
array order with identical work-part lists, for every stream of randomly
assigned row identifiers. -/
theorem C1_round_trip (db db' : DB) (m : Medium) (u : User) (gen : Nat → Int)
    (hwf : TracksWF db)
    (hlen : m.tracks.length ≤ 2 ^ 31)
    (hbounds : ∀ ts ∈ m.tracks, ts.tracks.length ≤ 2 ^ 31 ∧
      ∀ t ∈ ts.tracks, t.work_parts ≠ [] ∧ ∀ p ∈ t.work_parts, p < 2 ^ 64)
    (hupd : update_medium m u gen db = (.ok (), db')) :
    ∃ mm, get_medium db' m.id = .ok (some mm) ∧
      mm.id = m.id ∧ mm.name = m.name ∧ mm.discid = m.discid ∧
      mm.tracks.map tsShape = m.tracks.map tsShape :=
  get_medium_post hwf hlen hbounds hupd

theorem C1_round_trip_witness :
    TracksWF ⟨[], [], [], []⟩ ∧
    update_medium ⟨"m1", "Disc 1", none,
        [⟨⟨"r1", "w1", ""⟩, [⟨[0, 1]⟩, ⟨[2]⟩]⟩]⟩
        ⟨"alice", true, fun _ => true, true⟩ (fun k => (k : Int))
        ⟨[], [], [], []⟩ =
      (.ok (), ⟨[⟨"m1", "Disc 1", none, "alice"⟩], [⟨0, "m1", 0, "r1"⟩],
        [⟨1, 0, 0, "0,1"⟩, ⟨2, 0, 1, "2"⟩], [⟨"r1", "w1", "", "alice"⟩]⟩) ∧
    ∃ mm, get_medium (⟨[⟨"m1", "Disc 1", none, "alice"⟩],
        [⟨0, "m1", 0, "r1"⟩], [⟨1, 0, 0, "0,1"⟩, ⟨2, 0, 1, "2"⟩],
        [⟨"r1", "w1", "", "alice"⟩]⟩ : DB) "m1" = .ok (some mm) ∧
      mm.id = "m1" ∧ mm.name = "Disc 1" ∧ mm.discid = none ∧
      mm.tracks.map tsShape =
        [(⟨⟨"r1", "w1", ""⟩, [⟨[0, 1]⟩, ⟨[2]⟩]⟩ : TrackSet)].map tsShape :=
  ⟨fun t ht => absurd ht (List.not_mem_nil t), by decide,
    C1_round_trip ⟨[], [], [], []⟩
      ⟨[⟨"m1", "Disc 1", none, "alice"⟩], [⟨0, "m1", 0, "r1"⟩],
        [⟨1, 0, 0, "0,1"⟩, ⟨2, 0, 1, "2"⟩], [⟨"r1", "w1", "", "alice"⟩]⟩
      ⟨"m1", "Disc 1", none, [⟨⟨"r1", "w1", ""⟩, [⟨[0, 1]⟩, ⟨[2]⟩]⟩]⟩
      ⟨"alice", true, fun _ => true, true⟩ (fun k => (k : Int))
      (fun t ht => absurd ht (List.not_mem_nil t)) (by decide) (by decide)
      (by decide)⟩

/-- C2: `update_medium` returns Forbidden exactly when the authorization
gate fails — on an existing row iff the acting user lacks edit rights over
the stored owner, on an absent row iff the user lacks the create
capability — and a Forbidden failure leaves the store unchanged.  (The
Recording collaborator is modelled from the spec; per §7 its failure to
create a referenced recording surfaces as a `referential` error, not as
Forbidden.) -/
theorem C2_upsert_forbidden_iff (db : DB) (m : Medium) (u : User)
    (gen : Nat → Int) :
    (∀ row, findMediumRow db m.id = some row →
      ((update_medium m u gen db).1 = .error .forbidden ↔
        u.may_edit row.created_by = false)) ∧
    (findMediumRow db m.id = none →
      ((update_medium m u gen db).1 = .error .forbidden ↔
        u.may_create = false)) ∧
    ((update_medium m u gen db).1 = .error .forbidden →
      (update_medium m u gen db).2 = db) := by
  refine ⟨?_, ?_, ?_⟩
  · intro row hrow
    rw [update_medium_forbidden_iff]
    simp only [upsertAllowed, hrow]
  · intro hrow
    rw [update_medium_forbidden_iff]
    simp only [upsertAllowed, hrow]
  · intro hf
    have hp : update_medium m u gen db =
        (.error .forbidden, (update_medium m u gen db).2) := by
      rw [← hf]
    exact (transaction_error_elim hp).1

theorem C2_upsert_forbidden_iff_witness :
    findMediumRow ⟨[⟨"m1", "N", none, "bob"⟩], [], [], []⟩ "m1" =
      some ⟨"m1", "N", none, "bob"⟩ ∧
    (update_medium ⟨"m1", "X", none, []⟩
      ⟨"eve", false, fun _ => false, false⟩ (fun k => (k : Int))
      ⟨[⟨"m1", "N", none, "bob"⟩], [], [], []⟩).1 = .error .forbidden :=
  ⟨by decide,
    ((C2_upsert_forbidden_iff ⟨[⟨"m1", "N", none, "bob"⟩], [], [], []⟩
      ⟨"m1", "X", none, []⟩ ⟨"eve", false, fun _ => false, false⟩
      (fun k => (k : Int))).1 ⟨"m1", "N", none, "bob"⟩ (by decide)).mpr
      (by decide)⟩

/-- C3: `update_medium` and `delete_medium` are atomic — whenever either
returns an error of any kind, the returned store is exactly the store
before the call. -/
theorem C3_mutation_atomicity (db : DB) (m : Medium) (u : User)
    (gen : Nat → Int) (id : String) :
    (∀ e db2, update_medium m u gen db = (.error e, db2) → db2 = db) ∧
    (∀ e db2, delete_medium id u db = (.error e, db2) → db2 = db) := by
  constructor
  · intro e db2 h
    exact transaction_error h
  · intro e db2 h
    rw [delete_medium] at h
    split at h
    · exact absurd h (by simp)
    · injection h with h1 h2
      exact h2.symm

theorem C3_mutation_atomicity_witness :
    update_medium ⟨"m1", "X", none, []⟩ ⟨"eve", false, fun _ => false, false⟩
      (fun k => (k : Int)) ⟨[], [], [], []⟩ =
      (.error .forbidden, ⟨[], [], [], []⟩) ∧
    delete_medium "m1" ⟨"eve", false, fun _ => false, false⟩
      ⟨[], [], [], []⟩ = (.error .forbidden, ⟨[], [], [], []⟩) ∧
    (⟨[], [], [], []⟩ : DB) = ⟨[], [], [], []⟩ :=
  ⟨by decide, by decide,
    (C3_mutation_atomicity ⟨[], [], [], []⟩ ⟨"m1", "X", none, []⟩
      ⟨"eve", false, fun _ => false, false⟩ (fun k => (k : Int)) "m1").1
      .forbidden ⟨[], [], [], []⟩ (by decide)⟩

/-- C4: every successful `update_medium` stores the acting user as the
medium row's owner (`created_by`), whether the call creates a new medium
or replaces one previously owned by someone else. -/
theorem C4_owner_overwrite (db db' : DB) (m : Medium) (u : User)
    (gen : Nat → Int) (h : update_medium m u gen db = (.ok (), db')) :
    ∃ row, findMediumRow db' m.id = some row ∧
      row.created_by = u.username ∧ row.name = m.name ∧
      row.discid = m.discid := by
  obtain ⟨-, hmed, -, -, -, -, -⟩ := update_medium_ok h
  exact ⟨⟨m.id, m.name, m.discid, u.username⟩, findMediumRow_post hmed,
    rfl, rfl, rfl⟩

theorem C4_owner_overwrite_witness :
    update_medium ⟨"m1", "X", none, []⟩ ⟨"alice", true, fun _ => true, true⟩
      (fun k => (k : Int)) ⟨[⟨"m1", "N", none, "bob"⟩], [], [], []⟩ =
      (.ok (), ⟨[⟨"m1", "X", none, "alice"⟩], [], [], []⟩) ∧
    ∃ row, findMediumRow (⟨[⟨"m1", "X", none, "alice"⟩], [], [], []⟩ : DB)
        "m1" = some row ∧ row.created_by = "alice" ∧ row.name = "X" ∧
      row.discid = none :=
  ⟨by decide,
    C4_owner_overwrite ⟨[⟨"m1", "N", none, "bob"⟩], [], [], []⟩
      ⟨[⟨"m1", "X", none, "alice"⟩], [], [], []⟩ ⟨"m1", "X", none, []⟩
      ⟨"alice", true, fun _ => true, true⟩ (fun k => (k : Int)) (by decide)⟩

/-- C5: if any stored track row of a medium has a `workParts` field with a
malformed segment (an empty segment, or one that does not parse as a
non-negative integer), then — provided the medium's track-set recordings
all resolve — `get_medium` on that medium fails with a decode error
instead of returning a medium. -/
theorem C5_malformed_decode_error (db : DB) (mid : String) (row : MediumRow)
    (hfind : findMediumRow db mid = some row)
    (hmal : ∃ tr ∈ db.tracks,
      (∃ seg ∈ splitCommaChars tr.work_parts.data,
        seg = [] ∨ parseSegment seg = none) ∧
      ∃ tsr ∈ db.track_sets, tsr.id = tr.track_set ∧ tsr.medium = row.id)
    (hrecs : ∀ tsr ∈ db.track_sets, tsr.medium = row.id →
      ∃ r ∈ db.recordings, r.id = tsr.recording) :
    get_medium db mid = .error .decodeError := by
  obtain ⟨tr, htr, ⟨seg, hseg, hbad⟩, tsr, htsr, h1, h2⟩ := hmal
  have hdec : decodeWorkParts tr.work_parts = none :=
    decodeWorkParts_none_of_segment ⟨seg, hseg, by
      rcases hbad with hb | hb
      · rw [hb]
        rfl
      · exact hb⟩
  exact get_medium_decode_error hfind ⟨tr, htr, tsr, htsr, h1, h2, hdec⟩ hrecs

theorem C5_malformed_decode_error_witness :
    findMediumRow ⟨[⟨"m1", "N", none, "alice"⟩], [⟨5, "m1", 0, "r1"⟩],
        [⟨7, 5, 0, ""⟩], [⟨"r1", "w", "", "alice"⟩]⟩ "m1" =
      some ⟨"m1", "N", none, "alice"⟩ ∧
    get_medium ⟨[⟨"m1", "N", none, "alice"⟩], [⟨5, "m1", 0, "r1"⟩],
        [⟨7, 5, 0, ""⟩], [⟨"r1", "w", "", "alice"⟩]⟩ "m1" =
      .error .decodeError :=
  ⟨by decide,
    C5_malformed_decode_error
      ⟨[⟨"m1", "N", none, "alice"⟩], [⟨5, "m1", 0, "r1"⟩],
        [⟨7, 5, 0, ""⟩], [⟨"r1", "w", "", "alice"⟩]⟩ "m1"
      ⟨"m1", "N", none, "alice"⟩ (by decide) (by decide) (by decide)⟩

/-- C6: whenever `get_mediums_by_discid` succeeds, every returned medium
carries exactly the queried disc id (so a medium whose disc id is absent
is never returned, for any query string including the empty string), and
the returned media are exactly the reconstructions of the stored rows
whose disc id equals the query, in table order. -/
theorem C6_discid_null_semantics (db : DB) (q : String) (ms : List Medium)
    (h : get_mediums_by_discid db q = .ok ms) :
    (∀ mm ∈ ms, mm.discid = some q) ∧
    ms.map (fun m => m.id) =
      (db.mediums.filter (fun r => r.discid == some q)).map
        (fun r => r.id) := by
  rw [get_mediums_by_discid] at h
  obtain ⟨hid, -, hmem⟩ := mapMediumRows_ok_shape h
  refine ⟨?_, hid⟩
  intro mm hmm
  obtain ⟨rowm, hrow, hdata⟩ := hmem mm hmm
  obtain ⟨-, -, hdisc⟩ := get_medium_data_ok_proj hdata
  have hq := (List.mem_filter.mp hrow).2
  rw [hdisc]
  simpa using hq

theorem C6_discid_null_semantics_witness :
    get_mediums_by_discid ⟨[⟨"m1", "N", some "x", "alice"⟩,
        ⟨"m2", "M", none, "alice"⟩], [], [], []⟩ "" = .ok [] ∧
    (∀ mm ∈ ([] : List Medium), mm.discid = some "") ∧
    ([] : List Medium).map (fun m => m.id) =
      ((⟨[⟨"m1", "N", some "x", "alice"⟩, ⟨"m2", "M", none, "alice"⟩],
        [], [], []⟩ : DB).mediums.filter
        (fun r => r.discid == some "")).map (fun r => r.id) :=
  ⟨by decide,
    (C6_discid_null_semantics ⟨[⟨"m1", "N", some "x", "alice"⟩,
      ⟨"m2", "M", none, "alice"⟩], [], [], []⟩ "" [] (by decide)).1,
    (C6_discid_null_semantics ⟨[⟨"m1", "N", some "x", "alice"⟩,
      ⟨"m2", "M", none, "alice"⟩], [], [], []⟩ "" [] (by decide)).2⟩

/-- C7: whenever `get_mediums_for_recording` succeeds (on a store whose
track-set rows reference existing medium rows with unique ids), the
returned media correspond one-to-one, in order and with multiplicity, to
the track-set rows referencing the queried recording — a medium with `n`
matching track-sets appears `n` times — and every entry is the full
reconstruction of a stored medium row. -/
theorem C7_by_recording_multiplicity (db : DB) (rid : String)
    (ms : List Medium)
    (hwf : ∀ ts ∈ db.track_sets, ∃ r ∈ db.mediums, r.id = ts.medium)
    (hnd : (db.mediums.map (fun r => r.id)).Nodup)
    (h : get_mediums_for_recording db rid = .ok ms) :
    ms.map (fun m => m.id) =
      (db.track_sets.filter (fun ts => ts.recording == rid)).map
        (fun ts => ts.medium) ∧
    ∀ mm ∈ ms, ∃ row ∈ db.mediums, get_medium_data db row = .ok mm := by
  rw [get_mediums_for_recording] at h
  obtain ⟨hid, -, hmem⟩ := mapMediumRows_ok_shape h
  constructor
  · rw [hid, joinRowsForRecording]
    exact joinRows_map hnd (fun ts hts => hwf ts (List.mem_filter.mp hts).1)
  · intro mm hmm
    obtain ⟨rowm, hrow, hdata⟩ := hmem mm hmm
    exact ⟨rowm, mem_joinRows_mediums hrow, hdata⟩

theorem C7_by_recording_multiplicity_witness :
    get_mediums_for_recording ⟨[⟨"m1", "N", none, "alice"⟩],
        [⟨1, "m1", 0, "r1"⟩, ⟨2, "m1", 1, "r1"⟩], [],
        [⟨"r1", "w", "", "alice"⟩]⟩ "r1" =
      .ok [⟨"m1", "N", none, [⟨⟨"r1", "w", ""⟩, []⟩, ⟨⟨"r1", "w", ""⟩, []⟩]⟩,
        ⟨"m1", "N", none, [⟨⟨"r1", "w", ""⟩, []⟩, ⟨⟨"r1", "w", ""⟩, []⟩]⟩] ∧
    [(⟨"m1", "N", none, [⟨⟨"r1", "w", ""⟩, []⟩, ⟨⟨"r1", "w", ""⟩, []⟩]⟩ :
        Medium),
      ⟨"m1", "N", none, [⟨⟨"r1", "w", ""⟩, []⟩, ⟨⟨"r1", "w", ""⟩, []⟩]⟩].map
        (fun m => m.id) =
      ((⟨[⟨"m1", "N", none, "alice"⟩],
        [⟨1, "m1", 0, "r1"⟩, ⟨2, "m1", 1, "r1"⟩], [],
        [⟨"r1", "w", "", "alice"⟩]⟩ : DB).track_sets.filter
        (fun ts => ts.recording == "r1")).map (fun ts => ts.medium) :=
  ⟨by decide,
    (C7_by_recording_multiplicity ⟨[⟨"m1", "N", none, "alice"⟩],
      [⟨1, "m1", 0, "r1"⟩, ⟨2, "m1", 1, "r1"⟩], [],
      [⟨"r1", "w", "", "alice"⟩]⟩ "r1"
      [⟨"m1", "N", none, [⟨⟨"r1", "w", ""⟩, []⟩, ⟨⟨"r1", "w", ""⟩, []⟩]⟩,
        ⟨"m1", "N", none, [⟨⟨"r1", "w", ""⟩, []⟩, ⟨⟨"r1", "w", ""⟩, []⟩]⟩]
      (by decide) (by decide) (by decide)).1⟩

/-- C8: `delete_medium` succeeds exactly when the acting user has the
global delete capability, independent of the medium's owner; on success
the medium row is gone, no track-set row of the medium remains, and the
referential integrity of the remaining track rows is preserved (the
cascade removed them together with their track sets); deleting an id with
no stored medium succeeds and leaves the store unchanged. -/
theorem C8_delete_semantics (db : DB) (id : String) (u : User) :
    ((delete_medium id u db).1 = .ok () ↔ u.may_delete = true) ∧
    (u.may_delete = true →
      findMediumRow (delete_medium id u db).2 id = none ∧
      (∀ ts ∈ (delete_medium id u db).2.track_sets, ts.medium ≠ id) ∧
      (∀ tsr ∈ db.track_sets, tsr.medium = id →
        ∀ tr ∈ (delete_medium id u db).2.tracks, tr.track_set ≠ tsr.id) ∧
      (TracksWF db → TracksWF (delete_medium id u db).2)) ∧
    (u.may_delete = true → (∀ r ∈ db.mediums, r.id ≠ id) →
      (∀ ts ∈ db.track_sets, ∃ r ∈ db.mediums, r.id = ts.medium) →
      (delete_medium id u db).2 = db) := by
  refine ⟨?_, ?_, ?_⟩
  · cases hd : u.may_delete
    · rw [delete_medium, hd]
      simp
    · rw [delete_medium_ok_state hd]
      simp
  · intro hd
    rw [delete_medium_ok_state hd]
    refine ⟨findMediumRow_cascadeDelete, ?_, ?_, cascadeDelete_tracks_ref⟩
    · intro ts hts
      have := (List.mem_filter.mp hts).2
      simp only [Bool.not_eq_eq_eq_not, Bool.not_true, beq_eq_false_iff_ne,
        ne_eq] at this
      exact this
    · intro tsr htsr hmed tr htr hcontr
      have hpred := (List.mem_filter.mp htr).2
      simp only [Bool.not_eq_eq_eq_not, Bool.not_true] at hpred
      have hmem : tr.track_set ∈ (db.track_sets.filter
          (fun ts => ts.medium == id)).map (fun ts => ts.id) :=
        List.mem_map.mpr ⟨tsr, List.mem_filter.mpr ⟨htsr, by simp [hmed]⟩,
          hcontr.symm⟩
      have hcont : ((db.track_sets.filter (fun ts => ts.medium == id)).map
          (fun ts => ts.id)).contains tr.track_set = true :=
        List.elem_iff.mpr hmem
      rw [hcont] at hpred
      exact absurd hpred (by simp)
  · intro hd h1 h2
    rw [delete_medium_ok_state hd]
    exact cascadeDelete_eq_self h1 h2

theorem C8_delete_semantics_witness :
    (⟨"alice", true, fun _ => true, true⟩ : User).may_delete = true ∧
    (delete_medium "m1" ⟨"alice", true, fun _ => true, true⟩
      ⟨[⟨"m1", "N", none, "bob"⟩], [⟨1, "m1", 0, "r1"⟩], [⟨2, 1, 0, "0"⟩],
        [⟨"r1", "w", "", "alice"⟩]⟩).1 = .ok () ∧
    findMediumRow (delete_medium "m1" ⟨"alice", true, fun _ => true, true⟩
      ⟨[⟨"m1", "N", none, "bob"⟩], [⟨1, "m1", 0, "r1"⟩], [⟨2, 1, 0, "0"⟩],
        [⟨"r1", "w", "", "alice"⟩]⟩).2 "m1" = none ∧
    (delete_medium "m2" ⟨"alice", true, fun _ => true, true⟩
      ⟨[⟨"m1", "N", none, "bob"⟩], [⟨1, "m1", 0, "r1"⟩], [⟨2, 1, 0, "0"⟩],
        [⟨"r1", "w", "", "alice"⟩]⟩).2 =
      ⟨[⟨"m1", "N", none, "bob"⟩], [⟨1, "m1", 0, "r1"⟩], [⟨2, 1, 0, "0"⟩],
        [⟨"r1", "w", "", "alice"⟩]⟩ :=
  ⟨rfl,
    (C8_delete_semantics ⟨[⟨"m1", "N", none, "bob"⟩], [⟨1, "m1", 0, "r1"⟩],
      [⟨2, 1, 0, "0"⟩], [⟨"r1", "w", "", "alice"⟩]⟩ "m1"
      ⟨"alice", true, fun _ => true, true⟩).1.mpr (by decide),
    ((C8_delete_semantics ⟨[⟨"m1", "N", none, "bob"⟩], [⟨1, "m1", 0, "r1"⟩],
      [⟨2, 1, 0, "0"⟩], [⟨"r1", "w", "", "alice"⟩]⟩ "m1"
      ⟨"alice", true, fun _ => true, true⟩).2.1 (by decide)).1,
    (C8_delete_semantics ⟨[⟨"m1", "N", none, "bob"⟩], [⟨1, "m1", 0, "r1"⟩],
      [⟨2, 1, 0, "0"⟩], [⟨"r1", "w", "", "alice"⟩]⟩ "m2"
      ⟨"alice", true, fun _ => true, true⟩).2.2 (by decide) (by decide)
      (by decide)⟩

/-- C9: on every successful `update_medium`, the Recording collaborator's
upsert only ever creates rows for recordings absent from the store at that
point: the stored recordings after the call are exactly the rows stored
before it — each left unchanged and in place, so in particular the
recording of every track-set whose recording already exists is untouched —
followed by appended rows whose ids were not previously present, each for
a recording referenced by one of the medium's track-sets. -/
theorem C9_recording_frame (db db' : DB) (m : Medium) (u : User)
    (gen : Nat → Int) (h : update_medium m u gen db = (.ok (), db')) :
    ∃ newRows : List RecordingRow,
      db'.recordings = db.recordings ++ newRows ∧
      (∀ r ∈ newRows, ∀ x ∈ db.recordings, x.id ≠ r.id) ∧
      (∀ r ∈ newRows, ∃ ts ∈ m.tracks, r.id = ts.recording.id) :=
  update_medium_recordings_spec h

theorem C9_recording_frame_witness :
    update_medium ⟨"m1", "D", none,
        [⟨⟨"r1", "w", ""⟩, [⟨[0]⟩]⟩, ⟨⟨"r2", "v", ""⟩, [⟨[1]⟩]⟩]⟩
        ⟨"alice", true, fun _ => true, true⟩ (fun k => (k : Int))
        ⟨[], [], [], [⟨"r1", "w", "", "bob"⟩]⟩ =
      (.ok (), ⟨[⟨"m1", "D", none, "alice"⟩],
        [⟨0, "m1", 0, "r1"⟩, ⟨2, "m1", 1, "r2"⟩],
        [⟨1, 0, 0, "0"⟩, ⟨3, 2, 0, "1"⟩],
        [⟨"r1", "w", "", "bob"⟩, ⟨"r2", "v", "", "alice"⟩]⟩) ∧
    ∃ newRows : List RecordingRow,
      (⟨[⟨"m1", "D", none, "alice"⟩],
        [⟨0, "m1", 0, "r1"⟩, ⟨2, "m1", 1, "r2"⟩],
        [⟨1, 0, 0, "0"⟩, ⟨3, 2, 0, "1"⟩],
        [⟨"r1", "w", "", "bob"⟩, ⟨"r2", "v", "", "alice"⟩]⟩ : DB).recordings =
        (⟨[], [], [], [⟨"r1", "w", "", "bob"⟩]⟩ : DB).recordings ++ newRows ∧
      (∀ r ∈ newRows,
        ∀ x ∈ (⟨[], [], [], [⟨"r1", "w", "", "bob"⟩]⟩ : DB).recordings,
          x.id ≠ r.id) ∧
      (∀ r ∈ newRows, ∃ ts ∈ [(⟨⟨"r1", "w", ""⟩, [⟨[0]⟩]⟩ : TrackSet),
        ⟨⟨"r2", "v", ""⟩, [⟨[1]⟩]⟩], r.id = ts.recording.id) :=
  ⟨by decide,
    C9_recording_frame ⟨[], [], [], [⟨"r1", "w", "", "bob"⟩]⟩
      ⟨[⟨"m1", "D", none, "alice"⟩],
        [⟨0, "m1", 0, "r1"⟩, ⟨2, "m1", 1, "r2"⟩],
        [⟨1, 0, 0, "0"⟩, ⟨3, 2, 0, "1"⟩],
        [⟨"r1", "w", "", "bob"⟩, ⟨"r2", "v", "", "alice"⟩]⟩
      ⟨"m1", "D", none,
        [⟨⟨"r1", "w", ""⟩, [⟨[0]⟩]⟩, ⟨⟨"r2", "v", ""⟩, [⟨[1]⟩]⟩]⟩
      ⟨"alice", true, fun _ => true, true⟩ (fun k => (k : Int))
      (by decide)⟩

/-- C10: a medium containing a track with an empty work-part index list is
accepted by `update_medium` — the empty list is stored as an empty string
in the track row's `workParts` column — but a subsequent `get_medium` on
the same id fails with a decode error instead of returning the medium, so
the round trip does not hold for it. -/
theorem C10_empty_work_parts (db db' : DB) (m : Medium) (u : User)
    (gen : Nat → Int)
    (hempty : ∃ ts ∈ m.tracks, ∃ t ∈ ts.tracks, t.work_parts = [])
    (h : update_medium m u gen db = (.ok (), db')) :
    (∃ tr ∈ db'.tracks, tr.work_parts = "") ∧
    get_medium db' m.id = .error .decodeError := by
  obtain ⟨ts, hts, t, ht, htwp⟩ := hempty
  obtain ⟨-, hmed, htsets, htracks, -, -, hpres⟩ := update_medium_ok h
  obtain ⟨tsr, htsr, tr, htrmem, hidq, hmedq, hwpq⟩ :=
    @exists_aggRows_of_mem m.id gen m.tracks 0 0 ts t hts ht
  have hwp0 : tr.work_parts = "" := by
    rw [hwpq, htwp, encodeWorkParts_nil]
  constructor
  · exact ⟨tr, by rw [htracks]; exact List.mem_append_right _ htrmem, hwp0⟩
  · refine get_medium_decode_error (findMediumRow_post hmed) ?_ ?_
    · refine ⟨tr, by rw [htracks]; exact List.mem_append_right _ htrmem,
        tsr, by rw [htsets]; exact List.mem_append_right _ htsr, hidq, ?_, ?_⟩
      · rw [hmedq]
      · rw [hwp0]
        exact decodeWorkParts_empty
    · intro tsr' htsr' hmed'
      rw [htsets] at htsr'
      rcases List.mem_append.mp htsr' with hm | hm
      · exfalso
        have := (List.mem_filter.mp hm).2
        simp only [Bool.not_eq_eq_eq_not, Bool.not_true,
          beq_eq_false_iff_ne, ne_eq] at this
        exact this hmed'
      · obtain ⟨ts', hts', hrec'⟩ := mem_tsRowsFor_recording hm
        obtain ⟨r, hr, hrid⟩ := hpres ts' hts'
        exact ⟨r, hr, by rw [hrid, hrec']⟩

theorem C10_empty_work_parts_witness :
    (∃ ts ∈ [(⟨⟨"r1", "w1", ""⟩, [⟨[]⟩]⟩ : TrackSet)], ∃ t ∈ ts.tracks,
      t.work_parts = ([] : List Nat)) ∧
    update_medium ⟨"m1", "Disc 1", none, [⟨⟨"r1", "w1", ""⟩, [⟨[]⟩]⟩]⟩
        ⟨"alice", true, fun _ => true, true⟩ (fun k => (k : Int))
        ⟨[], [], [], []⟩ =
      (.ok (), ⟨[⟨"m1", "Disc 1", none, "alice"⟩], [⟨0, "m1", 0, "r1"⟩],
        [⟨1, 0, 0, ""⟩], [⟨"r1", "w1", "", "alice"⟩]⟩) ∧
    ((∃ tr ∈ (⟨[⟨"m1", "Disc 1", none, "alice"⟩], [⟨0, "m1", 0, "r1"⟩],
        [⟨1, 0, 0, ""⟩], [⟨"r1", "w1", "", "alice"⟩]⟩ : DB).tracks,
      tr.work_parts = "") ∧
      get_medium (⟨[⟨"m1", "Disc 1", none, "alice"⟩], [⟨0, "m1", 0, "r1"⟩],
        [⟨1, 0, 0, ""⟩], [⟨"r1", "w1", "", "alice"⟩]⟩ : DB) "m1" =
        .error .decodeError) :=
  ⟨by decide, by decide,
    C10_empty_work_parts ⟨[], [], [], []⟩
      ⟨[⟨"m1", "Disc 1", none, "alice"⟩], [⟨0, "m1", 0, "r1"⟩],
        [⟨1, 0, 0, ""⟩], [⟨"r1", "w1", "", "alice"⟩]⟩
      ⟨"m1", "Disc 1", none, [⟨⟨"r1", "w1", ""⟩, [⟨[]⟩]⟩]⟩
      ⟨"alice", true, fun _ => true, true⟩ (fun k => (k : Int))
      (by decide) (by decide)⟩

end Wolfgang
